import Mathlib

/-!
Verification development for the CardSnaply contact-inference engine and
vCard codec.  The JavaScript sources (`OCRProcessor` / `ContactParser` /
`VCardHandler`, in their web and mobile copies) are shallowly embedded:
strings are `List Char`, the JavaScript regular expressions used by the
code are embedded by a small backtracking matcher with JavaScript
semantics (leftmost match, greedy quantifiers, `lastIndex` statefulness of
`test` on `g`-flagged regexes), and JavaScript objects become Lean
structures whose possibly-absent fields are `Option`s.
-/

set_option maxHeartbeats 1000000

abbrev Str := List Char

/-! ## Character classes used by the JavaScript code -/

/-- JavaScript `\s` (and the character set removed by `String.prototype.trim`). -/
def isJsWs (c : Char) : Bool :=
  c = ' ' || c = '\t' || c = '\n' || c = '\x0b' || c = '\x0c' || c = '\r' ||
  c = ' ' || c = ' ' ||
  (0x2000 ≤ c.toNat && c.toNat ≤ 0x200a) ||
  c = ' ' || c = ' ' || c = ' ' || c = ' ' ||
  c = '　' || c = '﻿'

/-- ASCII letter, as matched by `[a-zA-Z]`. -/
def isAsciiLetter (c : Char) : Bool :=
  ('a' ≤ c && c ≤ 'z') || ('A' ≤ c && c ≤ 'Z')

/-- ASCII digit, as matched by `\d`. -/
def isDigitC (c : Char) : Bool := '0' ≤ c && c ≤ '9'

/-- JavaScript `\w`: ASCII letters, digits and underscore. -/
def isWordC (c : Char) : Bool := isAsciiLetter c || isDigitC c || c = '_'

/-- ASCII uppercase letter `[A-Z]`. -/
def isUpperAZ (c : Char) : Bool := 'A' ≤ c && c ≤ 'Z'

/-- ASCII-range uppercase mapping, as `String.prototype.toUpperCase` acts on ASCII. -/
def upChar (c : Char) : Char :=
  if 'a' ≤ c && c ≤ 'z' then Char.ofNat (c.toNat - 32) else c

/-- ASCII-range lowercase mapping, as `String.prototype.toLowerCase` acts on ASCII. -/
def lowChar (c : Char) : Char :=
  if 'A' ≤ c && c ≤ 'Z' then Char.ofNat (c.toNat + 32) else c

/-- Uppercase a string (ASCII range). -/
def toUpperA (s : Str) : Str := s.map upChar

/-- Lowercase a string (ASCII range). -/
def toLowerA (s : Str) : Str := s.map lowChar

/-! ## Basic string operations -/

/-- Remove the trailing run of characters satisfying `p`. -/
def dropEndWhile (p : Char → Bool) (s : Str) : Str :=
  ((s.reverse).dropWhile p).reverse

/-- JavaScript `String.prototype.trim`. -/
def jsTrim (s : Str) : Str :=
  dropEndWhile isJsWs (s.dropWhile isJsWs)

/-- Test whether `n` occurs as a contiguous substring of `h`
(JavaScript `String.prototype.includes`). -/
def hasSub (n : Str) : Str → Bool
  | [] => n.isEmpty
  | c :: rest => List.isPrefixOf n (c :: rest) || hasSub n rest

/-- JavaScript `String.prototype.startsWith` for a literal. -/
def startsWithStr (n s : Str) : Bool := List.isPrefixOf n s

/-- Substring of `s` from index `a` (inclusive) to `b` (exclusive),
as `String.prototype.substring(a, b)` behaves for `a ≤ b`. -/
def subSlice (s : Str) (a b : Nat) : Str := (s.drop a).take (b - a)

/-- Substring of `s` from index `a` to the end. -/
def sliceFrom (s : Str) (a : Nat) : Str := s.drop a

/-- JavaScript `split(/\s+/)`: separators are maximal whitespace runs, and a
leading or trailing separator contributes an empty field. -/
def jsSplitWs (s : Str) : List Str :=
  goA [] s
where
  goA (cur : Str) : Str → List Str
    | [] => [cur.reverse]
    | c :: rest => if isJsWs c then cur.reverse :: goB rest else goA (c :: cur) rest
  goB : Str → List Str
    | [] => [[]]
    | c :: rest => if isJsWs c then goB rest else goA [c] rest

/-- JavaScript `split(/[\r\n]+/)`: separators are maximal runs of CR/LF. -/
def splitCRLFruns (s : Str) : List Str :=
  goA [] s
where
  isSep (c : Char) : Bool := c = '\r' || c = '\n'
  goA (cur : Str) : Str → List Str
    | [] => [cur.reverse]
    | c :: rest => if isSep c then cur.reverse :: goB rest else goA (c :: cur) rest
  goB : Str → List Str
    | [] => [[]]
    | c :: rest => if isSep c then goB rest else goA [c] rest

/-- JavaScript `split(/\r?\n/)`: each LF, optionally preceded by CR, is one
separator; a lone CR does not separate. -/
def splitRN (s : Str) : List Str :=
  go [] s
where
  go (cur : Str) : Str → List Str
    | [] => [cur.reverse]
    | '\r' :: '\n' :: rest => cur.reverse :: go [] rest
    | '\n' :: rest => cur.reverse :: go [] rest
    | c :: rest => go (c :: cur) rest

/-- JavaScript `split(';')` for a single-character separator: every occurrence
separates, and empty fields are kept. -/
def splitSemi (s : Str) : List Str :=
  go [] s
where
  go (cur : Str) : Str → List Str
    | [] => [cur.reverse]
    | c :: rest => if c = ';' then cur.reverse :: go [] rest else go (c :: cur) rest

/-- Join with a single space, as `Array.prototype.join(' ')`. -/
def joinSpace (l : List Str) : Str := List.intercalate [' '] l

/-- JavaScript `String.prototype.replace(/c/g, rep)` for a single literal
character `c`: each occurrence is rewritten independently. -/
def replChar (c : Char) (rep : Str) (s : Str) : Str :=
  s.flatMap (fun d => if d = c then rep else [d])

/-- JavaScript `String.prototype.replace(/ab/g, rep)` for a two-character
literal pattern: leftmost, non-overlapping occurrences are rewritten and
scanning resumes after each replacement. -/
def rAll2 (a b : Char) (rep : Str) : Str → Str
  | [] => []
  | [c] => [c]
  | c :: d :: rest =>
      if c = a && d = b then rep ++ rAll2 a b rep rest
      else c :: rAll2 a b rep (d :: rest)

/-! ## The cleanText pipeline (`OCRProcessor.cleanText` / `ContactParser.cleanText`)

Each regex replacement of the JavaScript pipeline is embedded as a scanner
over `List Char`.  Run-replacing regexes (`[...]+`, `[...]{2,}`) replace each
maximal run by a single space, which the scanners below implement by
emitting the space at the last character of the run. -/

/-- Unicode dash-like characters `[‐-―–—]`. -/
def isUDash (c : Char) : Bool := 0x2010 ≤ c.toNat && c.toNat ≤ 0x2015

/-- Step 1: `.replace(/[‐-―–—]/g, '-')`. -/
def dashMap (s : Str) : Str := s.map (fun c => if isUDash c then '-' else c)

/-- Characters allowed at the string edges by step 2
(the complement of `[^a-zA-Z0-9@.\+\s\-,]`). -/
def isEdgeOK (c : Char) : Bool :=
  isAsciiLetter c || isDigitC c || c = '@' || c = '.' || c = '+' ||
  isJsWs c || c = '-' || c = ','

/-- Step 2: `.replace(/^[^a-zA-Z0-9@.\+\s\-,]+|[^a-zA-Z0-9@.\+\s\-,]+$/g, '')`:
remove the leading and the trailing run of disallowed characters. -/
def edgeStrip (s : Str) : Str :=
  dropEndWhile (fun c => !isEdgeOK c) (s.dropWhile (fun c => !isEdgeOK c))

/-- Garbage-punctuation class of the web copy (`part_000`–`part_013` bundle):
`[{}>\])(_+=•|\\/~]` in `OCRProcessor.cleanText`. -/
def webGarb (c : Char) : Bool :=
  c = '\x7b' || c = '\x7d' || c = '>' || c = ']' || c = ')' || c = '(' ||
  c = '_' || c = '+' || c = '=' || c = '•' || c = '|' || c = '\\' ||
  c = '/' || c = '~'

/-- Garbage-punctuation class of the mobile copy: the source file stores the
bullet of the web copy as the three mojibake characters `â`, `€`, `¢`
(`[{}>\])(_+=â€¢|\\/~]` in `ContactParser.cleanText`). -/
def mobGarb (c : Char) : Bool :=
  c = '\x7b' || c = '\x7d' || c = '>' || c = ']' || c = ')' || c = '(' ||
  c = '_' || c = '+' || c = '=' || c = 'â' || c = '€' || c = '¢' ||
  c = '|' || c = '\\' || c = '/' || c = '~'

/-- Step 3: `.replace(/[GARB]+/g, ' ')` — each maximal run of garbage
characters becomes one space.  The space is emitted at the last character of
the run; earlier run characters contribute nothing. -/
def garbS (p : Char → Bool) : Str → Str
  | [] => []
  | [c] => if p c then [' '] else [c]
  | c :: d :: rest =>
      if p c then
        (if p d then garbS p (d :: rest) else ' ' :: garbS p (d :: rest))
      else c :: garbS p (d :: rest)

/-- Dash/underscore class of step 4. -/
def isDashU (c : Char) : Bool := c = '-' || c = '_'

/-- Step 4 and steps 5/8, generic form: `.replace(/[CLS]{2,}/g, ' ')` — each
maximal run of two or more class characters becomes one space; an isolated
class character is kept. -/
def run2S (p : Char → Bool) : Str → Str
  | [] => []
  | [c] => [c]
  | c :: d :: rest2 =>
      if p c then
        if p d then
          match rest2 with
          | e :: _ =>
              if p e then run2S p (d :: rest2)
              else ' ' :: run2S p rest2
          | [] => [' ']
        else c :: run2S p (d :: rest2)
      else c :: run2S p (d :: rest2)

/-- Non-ASCII characters `[^\x00-\x7F]`. -/
def isNonAscii (c : Char) : Bool := 0x7f < c.toNat

/-- Step 6: `.replace(/[^\x00-\x7F]+/g, ' ')` — runs of non-ASCII characters
become one space. -/
def nonAsciiS : Str → Str := garbS isNonAscii

/-- Characters kept by step 7 (the complement of `[^\w\s@.+,\-]`). -/
def isKeep (c : Char) : Bool :=
  isWordC c || isJsWs c || c = '@' || c = '.' || c = '+' || c = ',' || c = '-'

/-- Step 7: `.replace(/[^\w\s@.+,\-]/g, ' ')` — every single disallowed
character becomes a space. -/
def keepMap (s : Str) : Str := s.map (fun c => if isKeep c then c else ' ')

/-- The full nine-step cleaning pipeline, parameterized by the
garbage-punctuation class (the only difference between the web and mobile
copies). -/
def cleanTextWith (garb : Char → Bool) (s : Str) : Str :=
  jsTrim (run2S isJsWs (keepMap (nonAsciiS (run2S isJsWs (run2S isDashU
    (garbS garb (edgeStrip (dashMap s))))))))

namespace OCRProcessor

/-- Web copy: `OCRProcessor.cleanText`. -/
def cleanText (s : Str) : Str := cleanTextWith webGarb s

end OCRProcessor

namespace ContactParser

/-- Mobile copy: `ContactParser.cleanText`. -/
def cleanText (s : Str) : Str := cleanTextWith mobGarb s

end ContactParser

/-! ## Contact records

A JavaScript object field that may be absent (`undefined`) is modelled as an
`Option`: `none` is `undefined`, `some s` is the string `s`. -/

/-- The contact record shape shared by the inference engine and the vCard
codec.  `OCRProcessor.extractContactInfo` / `ContactParser.extractContactInfo`
construct objects with only the first four fields (no `eventTag` property);
`VCardHandler.parse` constructs all five. -/
structure Contact where
  name : Option Str
  phone : Option Str
  email : Option Str
  company : Option Str
  eventTag : Option Str
deriving DecidableEq, Repr

/-- JavaScript truthiness of a possibly-absent string: `undefined` and the
empty string are falsy. -/
def truthy : Option Str → Bool
  | none => false
  | some s => !s.isEmpty

/-- JavaScript strict inequality `s !== o` between a string and a
possibly-absent string. -/
def jsStrNe (s : Str) (o : Option Str) : Bool :=
  match o with
  | none => true
  | some t => s ≠ t

/-! ## A regex matcher with JavaScript semantics

The patterns used by the source are built from character classes, literals,
greedy bounded/unbounded class repetition, greedy option, ordered
alternation, concatenation and word-boundary assertions.  `mtch` is a
backtracking matcher in continuation-passing style: it returns the end
position of the first (in JavaScript backtracking order) way to match the
regex at position `i` such that the continuation also succeeds. -/

inductive RE where
  | cls (p : Char → Bool)
  | lit (cs : Str)
  | liti (cs : Str)
  | opt (r : RE)
  | alt2 (a b : RE)
  | seq2 (a b : RE)
  | rep (p : Char → Bool) (lo : Nat) (hi : Option Nat)
  | wb

/-- Empty regex (matches the empty string). -/
def RE.eps : RE := RE.lit []

/-- Concatenation of a list of regexes. -/
def RE.seqs (rs : List RE) : RE := rs.foldr RE.seq2 RE.eps

/-- Ordered alternation of a list of regexes (first alternative preferred). -/
def RE.alts : List RE → RE
  | [] => RE.lit ['\x00']
  | [r] => r
  | r :: rs => RE.alt2 r (RE.alts rs)

/-- Does the literal `cs` occur at position `i` of `s`? -/
def litAt (s : Str) (i : Nat) (cs : Str) : Bool :=
  List.isPrefixOf cs (s.drop i)

/-- Case-insensitive (ASCII) variant of `litAt`. -/
def litAtCI (s : Str) (i : Nat) (cs : Str) : Bool :=
  List.isPrefixOf (toLowerA cs) (toLowerA (s.drop i))

/-- Length of the run of characters satisfying `p` starting at position `i`. -/
def runLen (p : Char → Bool) (s : Str) (i : Nat) : Nat :=
  ((s.drop i).takeWhile p).length

/-- Word-boundary test of JavaScript `\b` at position `i`. -/
def atWB (s : Str) (i : Nat) : Bool :=
  let pw := if i = 0 then false else
    match s.get? (i - 1) with
    | some c => isWordC c
    | none => false
  let cw := match s.get? i with
    | some c => isWordC c
    | none => false
  pw != cw

/-- Greedy repetition driver: try `k (i + j)` for `j = j0, j0 - 1, …, lo`. -/
def tryRep (k : Nat → Option Nat) (i lo : Nat) : Nat → Option Nat
  | 0 => if lo = 0 then k i else none
  | j + 1 =>
      if j + 1 < lo then none
      else
        match k (i + j + 1) with
        | some r => some r
        | none => tryRep k i lo j

/-- The backtracking matcher.  `mtch r s i k = some e` means: the regex `r`
matches some substring of `s` starting at `i`, and `k` applied to the
position after that substring returns `some e`; the choice explored first is
the one JavaScript's backtracking explores first. -/
def mtch : RE → Str → Nat → (Nat → Option Nat) → Option Nat
  | .cls p, s, i, k =>
      match s.get? i with
      | some c => if p c then k (i + 1) else none
      | none => none
  | .lit cs, s, i, k => if litAt s i cs then k (i + cs.length) else none
  | .liti cs, s, i, k => if litAtCI s i cs then k (i + cs.length) else none
  | .opt r, s, i, k =>
      match mtch r s i k with
      | some e => some e
      | none => k i
  | .alt2 a b, s, i, k =>
      match mtch a s i k with
      | some e => some e
      | none => mtch b s i k
  | .seq2 a b, s, i, k => mtch a s i (fun m => mtch b s m k)
  | .rep p lo hi, s, i, k =>
      let mx := match hi with
        | some h => min h (runLen p s i)
        | none => runLen p s i
      tryRep k i lo mx
  | .wb, s, i, k => if atWB s i then k i else none

/-- First match of `r` in `s` scanning start positions `i, i+1, …`
(the scan of `RegExp.prototype.exec`); returns start and end positions. -/
def scanFrom (r : RE) (s : Str) (i : Nat) : Option (Nat × Nat) :=
  go (s.length + 1 - i) i
where
  go : Nat → Nat → Option (Nat × Nat)
    | 0, _ => none
    | fuel + 1, j =>
        match mtch r s j some with
        | some e => some (j, e)
        | none => go fuel (j + 1)

/-- JavaScript `regex.test(s)` for a `g`-flagged regex: the scan starts at
the stored `lastIndex`; on success `lastIndex` becomes the match end, on
failure it is reset to `0`. -/
def testG (r : RE) (s : Str) (li : Nat) : Bool × Nat :=
  match scanFrom r s li with
  | some (_, e) => (true, e)
  | none => (false, 0)

/-- JavaScript `regex.test(s)` for a regex literal without the `g` flag
(stateless). -/
def reTest (r : RE) (s : Str) : Bool := (scanFrom r s 0).isSome

/-- First element of `s.match(regex)` for a `g`-flagged regex (`null` when
there is no match); the scan always starts at position `0` and the regex's
`lastIndex` ends up `0`. -/
def mFirst (r : RE) (s : Str) : Option Str :=
  match scanFrom r s 0 with
  | some (a, b) => some (subSlice s a b)
  | none => none

/-- JavaScript `s.search(regex)`: index of the first match, `lastIndex`
untouched; `none` stands for `-1`. -/
def searchIdx (r : RE) (s : Str) : Option Nat :=
  match scanFrom r s 0 with
  | some (a, _) => some a
  | none => none

/-! ## The patterns of `OCRProcessor.patterns` / `ContactParser.patterns` -/

/-- Separator class `[\s\-\.]` of the phone patterns. -/
def isSepC (c : Char) : Bool := isJsWs c || c = '-' || c = '.'

/-- Local-part class `[A-Za-z0-9._%+-]` of the email pattern. -/
def emailLocalC (c : Char) : Bool :=
  isAsciiLetter c || isDigitC c || c = '.' || c = '_' || c = '%' || c = '+' || c = '-'

/-- Domain class `[A-Za-z0-9.-]` of the email pattern. -/
def emailDomC (c : Char) : Bool :=
  isAsciiLetter c || isDigitC c || c = '.' || c = '-'

/-- Top-level-domain class `[A-Z|a-z]` of the email pattern (the class
literally contains `|`). -/
def emailTldC (c : Char) : Bool := isAsciiLetter c || c = '|'

/-- `patterns.email`: `\b[A-Za-z0-9._%+-]+@[A-Za-z0-9.-]+\.[A-Z|a-z]{2,}\b`. -/
def emailRE : RE :=
  RE.seqs [.wb, .rep emailLocalC 1 none, .lit ['@'], .rep emailDomC 1 none,
    .lit ['.'], .rep emailTldC 2 none, .wb]

/-- `patterns.phone`: `(\+?\d{1,3}[\s\-\.]?)?\(?\d{3}\)?[\s\-\.]?\d{3}[\s\-\.]?\d{4}`. -/
def phoneRE : RE :=
  RE.seqs [.opt (RE.seqs [.opt (.lit ['+']), .rep isDigitC 1 (some 3), .rep isSepC 0 (some 1)]),
    .opt (.lit ['(']), .rep isDigitC 3 (some 3), .opt (.lit [')']),
    .rep isSepC 0 (some 1), .rep isDigitC 3 (some 3),
    .rep isSepC 0 (some 1), .rep isDigitC 4 (some 4)]

/-- `patterns.phoneAlt`:
`(\+?\d{1,4}[\s\-\.]?)?\(?\d{2,4}\)?[\s\-\.]?\d{2,4}[\s\-\.]?\d{2,4}[\s\-\.]?\d{0,4}`. -/
def phoneAltRE : RE :=
  RE.seqs [.opt (RE.seqs [.opt (.lit ['+']), .rep isDigitC 1 (some 4), .rep isSepC 0 (some 1)]),
    .opt (.lit ['(']), .rep isDigitC 2 (some 4), .opt (.lit [')']),
    .rep isSepC 0 (some 1), .rep isDigitC 2 (some 4),
    .rep isSepC 0 (some 1), .rep isDigitC 2 (some 4),
    .rep isSepC 0 (some 1), .rep isDigitC 0 (some 4)]

/-- `patterns.url`: `https?:\/\/[^\s]+`. -/
def urlRE : RE :=
  RE.seqs [.lit ("http".data), .opt (.lit ['s']), .lit ("://".data),
    .rep (fun c => !isJsWs c) 1 none]

/-- The stateless literal `/\d{7,}/` of the phone rule. -/
def d7RE : RE := .rep isDigitC 7 none

/-- The stateless literal `/\d/`. -/
def digitRE : RE := .cls isDigitC

/-- The stateless literal `/\b[A-Z]{2}\s+\d{5}\b/` of the address rule. -/
def zipStateRE : RE :=
  RE.seqs [.wb, .rep isUpperAZ 2 (some 2), .rep isJsWs 1 none,
    .rep isDigitC 5 (some 5), .wb]

/-- The stateless literal `/\b\d{5}\b/` of the address rule. -/
def zip5RE : RE := RE.seqs [.wb, .rep isDigitC 5 (some 5), .wb]

/-- Street-suffix keywords of the address rule. -/
def streetWords : List Str :=
  ["street", "st", "avenue", "ave", "road", "rd", "boulevard", "blvd",
   "drive", "dr", "lane", "ln", "way", "circle", "ct"].map String.data

/-- The stateless literal
`/\b(street|st|avenue|ave|road|rd|boulevard|blvd|drive|dr|lane|ln|way|circle|ct)\b/i`. -/
def streetRE : RE :=
  RE.seqs [.wb, RE.alts (streetWords.map (fun w => RE.liti w)), .wb]

/-- The stateless literal `/\+\d/` of the single-line recovery. -/
def plusDigRE : RE := RE.seqs [.lit ['+'], .cls isDigitC]

/-- The stateless literal `/www\./i` of the single-line recovery. -/
def wwwIRE : RE := .liti ("www.".data)

/-- The `lastIndex` values of the four shared `g`-flagged pattern objects.
`RegExp.prototype.test` on such an object reads and writes its `lastIndex`,
so this state persists between calls on the same engine instance. -/
structure PatState where
  emailLI : Nat
  phoneLI : Nat
  phoneAltLI : Nat
  urlLI : Nat
deriving DecidableEq, Repr

/-- The state of a freshly constructed engine: every `lastIndex` is `0`. -/
def freshPS : PatState := ⟨0, 0, 0, 0⟩

/-! ## The line classifier (`classifyLine`, identical in both copies) -/

inductive LType where
  | email | phone | website | address | company | title | name | nameOrCompany | unknown
deriving DecidableEq, Repr

structure Cls where
  type : LType
  confidence : Nat
  original : Str
deriving DecidableEq, Repr

/-- Company keywords of the strong-company rule. -/
def companyPats : List Str :=
  ["inc", "ltd", "llc", "corp", "pvt", "limited", "incorporated", "company",
   "co.", "group", "solutions", "systems", "services", "agency"].map String.data

/-- Title/role keywords. -/
def titleKws : List Str :=
  ["agent", "manager", "director", "executive", "president", "ceo", "cfo",
   "cto", "vp", "vice president", "specialist", "consultant", "advisor",
   "representative", "assistant", "coordinator"].map String.data

/-- `classifyLine(line)`: the ordered first-match-wins rule chain.  The four
`test` calls on the shared `g`-flagged patterns read and update the engine's
`lastIndex` state, which is threaded explicitly; short-circuit evaluation of
the JavaScript `||` chains determines which of them run. -/
def classifyLineS (st : PatState) (line : Str) : Cls × PatState :=
  let lowerLine := toLowerA line
  -- email: `line.includes('@') || this.patterns.email.test(line)`
  if hasSub ['@'] line then (⟨.email, 10, line⟩, st)
  else
    let (bE, liE) := testG emailRE line st.emailLI
    let st := { st with emailLI := liE }
    if bE then (⟨.email, 10, line⟩, st)
    else
      -- phone: `line.includes('+') || /\d{7,}/.test(line) || phone.test(line) || phoneAlt.test(line)`
      if hasSub ['+'] line then (⟨.phone, 10, line⟩, st)
      else if reTest d7RE line then (⟨.phone, 10, line⟩, st)
      else
        let (bP, liP) := testG phoneRE line st.phoneLI
        let st := { st with phoneLI := liP }
        if bP then (⟨.phone, 10, line⟩, st)
        else
          let (bA, liA) := testG phoneAltRE line st.phoneAltLI
          let st := { st with phoneAltLI := liA }
          if bA then (⟨.phone, 10, line⟩, st)
          else
            -- website: `url.test(line) || lowerLine.includes('www.') || … '.com' | '.net' | '.org'`
            let (bU, liU) := testG urlRE line st.urlLI
            let st := { st with urlLI := liU }
            if bU || hasSub ("www.".data) lowerLine || hasSub (".com".data) lowerLine ||
                hasSub (".net".data) lowerLine || hasSub (".org".data) lowerLine then
              (⟨.website, 9, line⟩, st)
            else if reTest zipStateRE line || reTest zip5RE line || reTest streetRE line then
              (⟨.address, 8, line⟩, st)
            else if companyPats.any (fun k => hasSub k lowerLine) then
              (⟨.company, 10, line⟩, st)
            else if titleKws.any (fun k => hasSub k lowerLine) then
              (if hasSub ("real estate".data) lowerLine || hasSub ("realestate".data) lowerLine
               then (⟨.company, 8, line⟩, st)
               else (⟨.title, 7, line⟩, st))
            else
              let words := (jsSplitWs line).filter (fun w => 0 < w.length)
              let hasTwoWords := words.length = 2
              let allCap := words.all (fun w =>
                0 < w.length &&
                (match w with
                 | c :: _ => upChar c = c && isUpperAZ c
                 | [] => true))
              let noNumbers := !(reTest digitRE line)
              let reasonable := 3 ≤ line.length && line.length ≤ 40
              if hasTwoWords && allCap && noNumbers && reasonable then
                (⟨.name, 9, line⟩, st)
              else if 2 ≤ words.length && allCap && noNumbers && reasonable then
                (⟨.nameOrCompany, 6, line⟩, st)
              else (⟨.unknown, 0, line⟩, st)

/-- `lines.map(line => this.classifyLine(line))`, threading the pattern
state left to right. -/
def classifyAll (st : PatState) : List Str → List Cls × PatState
  | [] => ([], st)
  | l :: ls =>
      let (c, st1) := classifyLineS st l
      let (cs, st2) := classifyAll st1 ls
      (c :: cs, st2)

/-! ## `extractContactInfo` (web `OCRProcessor` and mobile `ContactParser`) -/

/-- The record literal `{ name: '', phone: '', email: '', company: '' }`
built at the top of `extractContactInfo`: four string fields, no `eventTag`
property. -/
def initCI : Contact := ⟨some [], some [], some [], some [], none⟩

/-- The list containing the value of an optional position (`-1` becomes the
empty list). -/
def optPos : Option Nat → List Nat
  | some p => [p]
  | none => []

/-- Stable insertion into an ascending list (ties keep earlier elements
first, as `Array.prototype.sort` with comparator `a.pos - b.pos`). -/
def insertPos (x : Nat) : List Nat → List Nat
  | [] => [x]
  | y :: r => if x < y then x :: y :: r else y :: insertPos x r

/-- Stable sort of split positions. -/
def sortPos (l : List Nat) : List Nat := l.foldl (fun acc x => insertPos x acc) []

/-- The `potentialSplits.forEach` loop of the single-line recovery: cut the
line before each split position, keeping non-empty trimmed segments, and
track the last cut position. -/
def foldSegs (l0 : Str) (ps : List Nat) : List Str × Nat :=
  ps.foldl
    (fun acc pos =>
      let segs := acc.1
      let lastPos := acc.2
      if lastPos < pos then
        let seg := jsTrim (subSlice l0 lastPos pos)
        (if 0 < seg.length then segs ++ [seg] else segs, pos)
      else (segs, pos))
    ([], 0)

/-- Condition `!contact.company || contact.company.trim() === ''` of
`normalizeFields`. -/
def jsFalsyOrBlank : Option Str → Bool
  | none => true
  | some s => s.isEmpty || (jsTrim s).isEmpty

/-- Final phone cleanup `.replace(/[\s\-\.]/g, '')`. -/
def stripSeps (s : Str) : Str := s.filter (fun c => !isSepC c)

/-- Final phone cleanup `.replace(/^\+?1/, '')` (web copy only): remove one
leading `+1` or bare leading `1`. -/
def stripLead1 : Str → Str
  | '+' :: '1' :: r => r
  | '1' :: r => r
  | s => s

/-- Name/company resolution and `normalizeFields`: the section of
`extractContactInfo` that runs after line classification.  It reads and
writes only the `name` and `company` fields. -/
def resolveNC (ct : Str → Str) (cls : List Cls) (c : Contact) : Contact :=
  -- name resolution
  let nameLines := cls.filter (fun cl => cl.type = .name && 9 ≤ cl.confidence)
  let c := match nameLines with
    | nl :: _ => { c with name := some (ct nl.original) }
    | [] =>
        match cls.filter (fun cl => cl.type = .nameOrCompany && 6 ≤ cl.confidence) with
        | nl :: _ => { c with name := some (ct nl.original) }
        | [] => c
  -- company resolution
  let companyLines := cls.filter (fun cl =>
    (cl.type = .company && 8 ≤ cl.confidence) || (cl.type = .title && 7 ≤ cl.confidence))
  let c := match companyLines with
    | cl0 :: _ =>
        let companyLine := match companyLines.find? (fun cl => cl.type = .company) with
          | some x => x
          | none => cl0
        { c with company := some (ct companyLine.original) }
    | [] =>
        match cls.filter (fun cl => cl.type = .nameOrCompany &&
            jsStrNe cl.original c.name && 6 ≤ cl.confidence) with
        | cl :: _ => { c with company := some (ct cl.original) }
        | [] => c
  -- `normalizeFields`
  if jsFalsyOrBlank c.company then
    match cls.find? (fun cl => cl.type = .title ||
        (cl.type = .company && 7 ≤ cl.confidence)) with
    | some tl => { c with company := some (ct tl.original) }
    | none => c
  else c

/-- The body of `extractContactInfo` after the `if (!text)` early return and
before the final per-field cleanup, shared verbatim by both copies modulo
the `cleanText` variant `ct`.  Returns the contact together with the updated
`lastIndex` state. -/
def extractBaseS (ct : Str → Str) (st : PatState) (text : Str) : Contact × PatState :=
  let cleanedText := ct text
  -- `const emailMatch = cleanedText.match(this.patterns.email)` —
  -- `match` on a `g`-flagged regex scans from 0 and leaves `lastIndex = 0`.
  let emailM := mFirst emailRE cleanedText
  let st := { st with emailLI := 0 }
  let c := match emailM with
    | some m => { initCI with email := some (toLowerA (jsTrim m)) }
    | none => initCI
  -- `cleanedText.match(this.patterns.phone) || cleanedText.match(this.patterns.phoneAlt)`
  let pm := mFirst phoneRE cleanedText
  let pst : Option Str × PatState := match pm with
    | some m => (some m, { st with phoneLI := 0 })
    | none => (mFirst phoneAltRE cleanedText, { st with phoneLI := 0, phoneAltLI := 0 })
  let phoneM := pst.1
  let st := pst.2
  let c := match phoneM with
    | some m => { c with phone := some (jsTrim m) }
    | none => c
  -- `cleanedText.split(/\r?\n/).map(line => this.cleanText(line.trim())).filter(...)`
  let lines0 := ((splitRN cleanedText).map (fun l => ct (jsTrim l))).filter
    (fun l => 0 < l.length)
  -- single-line recovery (`lines.length === 1 && lines[0].length > 50`)
  let lines :=
    match lines0 with
    | [l0] =>
        if 50 < l0.length then
          let emailPos := searchIdx emailRE l0
          let phonePos := match searchIdx phoneRE l0 with
            | some p => some p
            | none => searchIdx plusDigRE l0
          let websitePos := match searchIdx urlRE l0 with
            | some p => some p
            | none => searchIdx wwwIRE l0
          let splits := optPos emailPos ++ optPos phonePos ++ optPos websitePos
          let sorted := sortPos splits
          if 0 < sorted.length then
            let fs := foldSegs l0 sorted
            let segs := fs.1
            let lastPos := fs.2
            let newLines :=
              if lastPos < l0.length then
                let remaining := jsTrim (sliceFrom l0 lastPos)
                if 0 < remaining.length then segs ++ [remaining] else segs
              else segs
            if 1 < newLines.length then newLines.map ct else lines0
          else lines0
        else lines0
    | _ => lines0
  -- `const classifiedLines = lines.map(line => this.classifyLine(line))`
  let cst := classifyAll st lines
  (resolveNC ct cst.1 c, cst.2)

namespace OCRProcessor

/-- Final per-field cleanup of the web copy, including the
`.replace(/^\+?1/, '')` country-code strip. -/
def finalize (c : Contact) : Contact :=
  { c with
    name := some (cleanText (c.name.getD [])),
    company := some (cleanText (c.company.getD [])),
    phone := some (if truthy c.phone then stripLead1 (stripSeps (c.phone.getD [])) else []),
    email := some (if truthy c.email then toLowerA (jsTrim (c.email.getD [])) else []) }

/-- Web `OCRProcessor.extractContactInfo`, with the engine's pattern state
threaded explicitly. -/
def extractContactInfoS (st : PatState) (text : Str) : Contact × PatState :=
  if text.isEmpty then (initCI, st)
  else
    let r := extractBaseS cleanText st text
    (finalize r.1, r.2)

/-- Web `extractContactInfo` on a freshly constructed engine. -/
def extractContactInfo (text : Str) : Contact :=
  (extractContactInfoS freshPS text).1

end OCRProcessor

namespace ContactParser

/-- Final per-field cleanup of the mobile copy (no country-code strip). -/
def finalize (c : Contact) : Contact :=
  { c with
    name := some (cleanText (c.name.getD [])),
    company := some (cleanText (c.company.getD [])),
    phone := some (if truthy c.phone then stripSeps (c.phone.getD []) else []),
    email := some (if truthy c.email then toLowerA (jsTrim (c.email.getD [])) else []) }

/-- Mobile `ContactParser.extractContactInfo`, with the pattern state
threaded explicitly. -/
def extractContactInfoS (st : PatState) (text : Str) : Contact × PatState :=
  if text.isEmpty then (initCI, st)
  else
    let r := extractBaseS cleanText st text
    (finalize r.1, r.2)

/-- Mobile `extractContactInfo` on a freshly constructed engine. -/
def extractContactInfo (text : Str) : Contact :=
  (extractContactInfoS freshPS text).1

end ContactParser

/-! ## `VCardHandler` (identical in the web and mobile copies) -/

namespace VCardHandler

/-- `escape(value)`: the four sequential global replacements (backslash,
semicolon, comma, newline) followed by carriage-return removal. -/
def escape (s : Str) : Str :=
  replChar '\r' []
    (replChar '\n' ['\\', 'n']
      (replChar ',' ['\\', ',']
        (replChar ';' ['\\', ';']
          (replChar '\\' ['\\', '\\'] s))))

/-- `unescape(value)`: the four sequential global replacements, applied in
source order `\n`, `\,`, `\;`, `\\`. -/
def unescape (s : Str) : Str :=
  rAll2 '\\' '\\' ['\\']
    (rAll2 '\\' ';' [';']
      (rAll2 '\\' ',' [',']
        (rAll2 '\\' 'n' ['\n'] s)))

/-- `generate(contact)`: build the vCard 3.0 line list and join with CRLF. -/
def generate (c : Contact) : Str :=
  let lines : List Str := ["BEGIN:VCARD".data, "VERSION:3.0".data]
  let lines := if truthy c.name then
      let n := c.name.getD []
      let fnLine := "FN:".data ++ escape n
      let nameParts := jsSplitWs (jsTrim n)
      let nLine :=
        if 1 < nameParts.length then
          "N:".data ++ escape (nameParts.getLastD []) ++ [';'] ++
            escape (joinSpace nameParts.dropLast) ++ ";;;".data
        else
          "N:".data ++ escape n ++ ";;;".data
      lines ++ [fnLine, nLine]
    else lines
  let lines := if truthy c.phone then
      let cleanPhone := (c.phone.getD []).filter
        (fun ch => !(isJsWs ch || ch = '-' || ch = '(' || ch = ')'))
      lines ++ ["TEL;TYPE=CELL:".data ++ escape cleanPhone]
    else lines
  let lines := if truthy c.email then
      lines ++ ["EMAIL;TYPE=INTERNET:".data ++ escape (c.email.getD [])]
    else lines
  let lines := if truthy c.company then
      lines ++ ["ORG:".data ++ escape (c.company.getD [])]
    else lines
  let lines := if truthy c.eventTag then
      lines ++ ["X-EVENT-TAG:".data ++ escape (c.eventTag.getD [])]
    else lines
  let lines := lines ++ ["END:VCARD".data]
  List.intercalate ['\r', '\n'] lines

/-- Characters matched by `.` in a JavaScript regex without the `s` flag. -/
def isDotC (c : Char) : Bool :=
  !(c = '\n' || c = '\r' || c = ' ' || c = ' ')

/-- `line.match(/^([^:]+):(.+)$/)`: split at the first colon; both parts must
be non-empty and the value must consist of `.`-matchable characters. -/
def lineMatch (line : Str) : Option (Str × Str) :=
  let fieldPart := line.takeWhile (fun c => c ≠ ':')
  let rest := line.drop fieldPart.length
  match rest with
  | c :: value =>
      if c = ':' then
        if fieldPart.isEmpty then none
        else if value.isEmpty then none
        else if value.all isDotC then some (fieldPart, value)
        else none
      else none
  | [] => none

/-- The record literal `{ name: '', phone: '', email: '', company: '',
eventTag: '' }` built at the top of `parse`: all five fields present. -/
def initVC : Contact := ⟨some [], some [], some [], some [], some []⟩

/-- The body of the `for (const line of lines)` loop of `parse`. -/
def parseStep (c : Contact) (line : Str) : Contact :=
  if (jsTrim line).isEmpty || startsWithStr ("BEGIN".data) line ||
      startsWithStr ("END".data) line then c
  else
    match lineMatch line with
    | none => c
    | some (fieldPart, value) =>
        let field := toUpperA ((splitSemi fieldPart).headD [])
        let unescapedValue := unescape value
        if field = "FN".data then { c with name := some unescapedValue }
        else if field = "N".data then
          let nameParts := splitSemi value
          if 2 ≤ nameParts.length then
            let fpart := unescape (nameParts.getD 1 [])
            let lpart := unescape (nameParts.getD 0 [])
            { c with name := some (jsTrim (fpart ++ [' '] ++ lpart)) }
          else if !(nameParts.getD 0 []).isEmpty then
            { c with name := some (unescape (nameParts.getD 0 [])) }
          else c
        else if field = "TEL".data then
          if truthy c.phone then c else { c with phone := some unescapedValue }
        else if field = "EMAIL".data then
          if truthy c.email then c else { c with email := some unescapedValue }
        else if field = "ORG".data then { c with company := some unescapedValue }
        else if field = "X-EVENT-TAG".data then { c with eventTag := some unescapedValue }
        else c

/-- `parse(vcardString)`. -/
def parse (v : Str) : Contact :=
  if v.isEmpty then initVC
  else (splitCRLFruns v).foldl parseStep initVC

end VCardHandler

/-! ## Exception-aware twins

JavaScript throws (`TypeError`) exactly when a property or method is
accessed on `null`/`undefined`.  The twins below mirror the four public
operations with every such access modeled through `jsVal`, which fails on
an absent value; array indexing itself (which yields `undefined`, never
throws) stays `Option`-valued.  Proving a twin equal to `.ok` of the pure
embedding shows that no exception can propagate out of the operation. -/

/-- Access a possibly-absent value; JavaScript would throw where this is
`.error`. -/
def jsVal {α : Type} : Option α → Except Unit α
  | some a => .ok a
  | none => .error ()

/-- Exception-aware `cleanText`: the pipeline applies string methods to
strings only, so it has no fallible access at all. -/
def cleanTextWithE (garb : Char → Bool) (s : Str) : Except Unit Str :=
  .ok (cleanTextWith garb s)

/-- Exception-aware twin of `resolveNC`. -/
def resolveNCE (ct : Str → Str) (cls : List Cls) (c : Contact) : Except Unit Contact := do
  let nameLines := cls.filter (fun cl => cl.type = .name && 9 ≤ cl.confidence)
  let c ← if 0 < nameLines.length then do
      let nl ← jsVal nameLines.head?
      pure { c with name := some (ct nl.original) }
    else
      let noc := cls.filter (fun cl => cl.type = .nameOrCompany && 6 ≤ cl.confidence)
      if 0 < noc.length then do
        let nl ← jsVal noc.head?
        pure { c with name := some (ct nl.original) }
      else pure c
  let companyLines := cls.filter (fun cl =>
    (cl.type = .company && 8 ≤ cl.confidence) || (cl.type = .title && 7 ≤ cl.confidence))
  let c ← if 0 < companyLines.length then do
      let companyLine ← jsVal
        (match companyLines.find? (fun cl => cl.type = .company) with
         | some x => some x
         | none => companyLines.head?)
      pure { c with company := some (ct companyLine.original) }
    else
      let rem := cls.filter (fun cl => cl.type = .nameOrCompany &&
        jsStrNe cl.original c.name && 6 ≤ cl.confidence)
      if 0 < rem.length then do
        let cl ← jsVal rem.head?
        pure { c with company := some (ct cl.original) }
      else pure c
  if jsFalsyOrBlank c.company then
    match cls.find? (fun cl => cl.type = .title ||
        (cl.type = .company && 7 ≤ cl.confidence)) with
    | some tl => pure { c with company := some (ct tl.original) }
    | none => pure c
  else pure c

/-- Exception-aware body of `extractContactInfo`:
`emailMatch[0].trim()`, `phoneMatch[0].trim()`, `lines[0].length`,
`nameLines[0].original`, `companyLine.original` and the fallback accesses
are property accesses on possibly-`undefined` values, guarded in the source
by truthiness/length tests that are reproduced here. -/
def extractBaseE (ct : Str → Str) (st : PatState) (text : Str) :
    Except Unit (Contact × PatState) := do
  let cleanedText := ct text
  let emailM := mFirst emailRE cleanedText
  let st := { st with emailLI := 0 }
  let c ← if emailM.isSome then do
      let m ← jsVal emailM
      pure { initCI with email := some (toLowerA (jsTrim m)) }
    else pure initCI
  let pm := mFirst phoneRE cleanedText
  let pst : Option Str × PatState := match pm with
    | some m => (some m, { st with phoneLI := 0 })
    | none => (mFirst phoneAltRE cleanedText, { st with phoneLI := 0, phoneAltLI := 0 })
  let phoneM := pst.1
  let st := pst.2
  let c ← if phoneM.isSome then do
      let m ← jsVal phoneM
      pure { c with phone := some (jsTrim m) }
    else pure c
  let lines0 := ((splitRN cleanedText).map (fun l => ct (jsTrim l))).filter
    (fun l => 0 < l.length)
  let lines ← if lines0.length = 1 then do
      let l0 ← jsVal lines0.head?
      if 50 < l0.length then
        let emailPos := searchIdx emailRE l0
        let phonePos := match searchIdx phoneRE l0 with
          | some p => some p
          | none => searchIdx plusDigRE l0
        let websitePos := match searchIdx urlRE l0 with
          | some p => some p
          | none => searchIdx wwwIRE l0
        let splits := optPos emailPos ++ optPos phonePos ++ optPos websitePos
        let sorted := sortPos splits
        if 0 < sorted.length then
          let fs := foldSegs l0 sorted
          let segs := fs.1
          let lastPos := fs.2
          let newLines :=
            if lastPos < l0.length then
              let remaining := jsTrim (sliceFrom l0 lastPos)
              if 0 < remaining.length then segs ++ [remaining] else segs
            else segs
          if 1 < newLines.length then pure (newLines.map ct) else pure lines0
        else pure lines0
      else pure lines0
    else pure lines0
  let cst := classifyAll st lines
  let c ← resolveNCE ct cst.1 c
  pure (c, cst.2)

namespace OCRProcessor

/-- Exception-aware final cleanup of the web copy: `contact.phone.replace`
and `contact.email.trim` are method calls guarded by truthiness. -/
def finalizeE (c : Contact) : Except Unit Contact := do
  let name := cleanText (c.name.getD [])
  let company := cleanText (c.company.getD [])
  let phone ← if truthy c.phone then do
      let p ← jsVal c.phone
      pure (stripLead1 (stripSeps p))
    else pure []
  let email ← if truthy c.email then do
      let e ← jsVal c.email
      pure (toLowerA (jsTrim e))
    else pure []
  pure ⟨some name, some phone, some email, some company, c.eventTag⟩

/-- Exception-aware web `extractContactInfo`. -/
def extractContactInfoE (st : PatState) (text : Str) :
    Except Unit (Contact × PatState) := do
  if text.isEmpty then pure (initCI, st)
  else
    let r ← extractBaseE cleanText st text
    let c ← finalizeE r.1
    pure (c, r.2)

end OCRProcessor

namespace ContactParser

/-- Exception-aware final cleanup of the mobile copy. -/
def finalizeE (c : Contact) : Except Unit Contact := do
  let name := cleanText (c.name.getD [])
  let company := cleanText (c.company.getD [])
  let phone ← if truthy c.phone then do
      let p ← jsVal c.phone
      pure (stripSeps p)
    else pure []
  let email ← if truthy c.email then do
      let e ← jsVal c.email
      pure (toLowerA (jsTrim e))
    else pure []
  pure ⟨some name, some phone, some email, some company, c.eventTag⟩

/-- Exception-aware mobile `extractContactInfo`. -/
def extractContactInfoE (st : PatState) (text : Str) :
    Except Unit (Contact × PatState) := do
  if text.isEmpty then pure (initCI, st)
  else
    let r ← extractBaseE cleanText st text
    let c ← finalizeE r.1
    pure (c, r.2)

end ContactParser

namespace VCardHandler

/-- Exception-aware `generate`: `contact.name.trim()`,
`contact.phone.replace(...)` and the other field reads are accesses on
possibly-absent fields, each guarded by an `if (contact.field)` truthiness
test in the source. -/
def generateE (c : Contact) : Except Unit Str := do
  let lines : List Str := ["BEGIN:VCARD".data, "VERSION:3.0".data]
  let lines ← if truthy c.name then do
      let n ← jsVal c.name
      let fnLine := "FN:".data ++ escape n
      let nameParts := jsSplitWs (jsTrim n)
      let nLine :=
        if 1 < nameParts.length then
          "N:".data ++ escape (nameParts.getLastD []) ++ [';'] ++
            escape (joinSpace nameParts.dropLast) ++ ";;;".data
        else
          "N:".data ++ escape n ++ ";;;".data
      pure (lines ++ [fnLine, nLine])
    else pure lines
  let lines ← if truthy c.phone then do
      let p ← jsVal c.phone
      let cleanPhone := p.filter (fun ch => !(isJsWs ch || ch = '-' || ch = '(' || ch = ')'))
      pure (lines ++ ["TEL;TYPE=CELL:".data ++ escape cleanPhone])
    else pure lines
  let lines ← if truthy c.email then do
      let e ← jsVal c.email
      pure (lines ++ ["EMAIL;TYPE=INTERNET:".data ++ escape e])
    else pure lines
  let lines ← if truthy c.company then do
      let co ← jsVal c.company
      pure (lines ++ ["ORG:".data ++ escape co])
    else pure lines
  let lines ← if truthy c.eventTag then do
      let t ← jsVal c.eventTag
      pure (lines ++ ["X-EVENT-TAG:".data ++ escape t])
    else pure lines
  pure (List.intercalate ['\r', '\n'] (lines ++ ["END:VCARD".data]))

/-- Exception-aware loop body of `parse`: the destructuring
`const [, fieldPart, value] = match` is an access on the possibly-`null`
match result, guarded by `if (!match) continue`. -/
def parseStepE (c : Contact) (line : Str) : Except Unit Contact :=
  if (jsTrim line).isEmpty || startsWithStr ("BEGIN".data) line ||
      startsWithStr ("END".data) line then .ok c
  else if (lineMatch line).isSome then do
    let fv ← jsVal (lineMatch line)
    let field := toUpperA ((splitSemi fv.1).headD [])
    let unescapedValue := unescape fv.2
    if field = "FN".data then pure { c with name := some unescapedValue }
    else if field = "N".data then
      let nameParts := splitSemi fv.2
      if 2 ≤ nameParts.length then
        let fpart := unescape (nameParts.getD 1 [])
        let lpart := unescape (nameParts.getD 0 [])
        pure { c with name := some (jsTrim (fpart ++ [' '] ++ lpart)) }
      else if !(nameParts.getD 0 []).isEmpty then
        pure { c with name := some (unescape (nameParts.getD 0 [])) }
      else pure c
    else if field = "TEL".data then
      if truthy c.phone then pure c else pure { c with phone := some unescapedValue }
    else if field = "EMAIL".data then
      if truthy c.email then pure c else pure { c with email := some unescapedValue }
    else if field = "ORG".data then pure { c with company := some unescapedValue }
    else if field = "X-EVENT-TAG".data then pure { c with eventTag := some unescapedValue }
    else pure c
  else .ok c

/-- Exception-aware `parse`. -/
def parseE (v : Str) : Except Unit Contact :=
  if v.isEmpty then .ok initVC
  else (splitCRLFruns v).foldlM parseStepE initVC

end VCardHandler


/-! ## Auxiliary definitions used by the verification -/

/-- No two adjacent characters of the list both satisfy `p`. -/
def noPairP (p : Char → Bool) : Str → Prop
  | [] => True
  | [_] => True
  | a :: b :: r => ¬(p a = true ∧ p b = true) ∧ noPairP p (b :: r)

/-- Every position in `[a, b)` of `s` holds a character of alphabet `A`. -/
def winA (A : Char → Bool) (s : Str) (a b : Nat) : Prop :=
  ∀ t, a ≤ t → t < b → ∃ c, s.get? t = some c ∧ A c = true

/-- The continuation `k` only accepts positions `≥ i` and windows in `A`. -/
def kGoodA (A : Char → Bool) (s : Str) (k : Nat → Option Nat) (i : Nat) : Prop :=
  ∀ m j, i ≤ m → k m = some j → m ≤ j ∧ winA A s m j

/-- All classes and literals of the regex lie inside alphabet `A`. -/
def REok (A : Char → Bool) : RE → Prop
  | .cls p => ∀ c, p c = true → A c = true
  | .lit cs => ∀ c ∈ cs, A c = true
  | .liti cs => ∀ c d, d ∈ cs → lowChar c = lowChar d → A c = true
  | .opt r => REok A r
  | .alt2 a b => REok A a ∧ REok A b
  | .seq2 a b => REok A a ∧ REok A b
  | .rep p _ _ => ∀ c, p c = true → A c = true
  | .wb => True

/-- Alphabet of the two phone patterns. -/
def isPhoneA (c : Char) : Bool :=
  isDigitC c || isSepC c || c = '+' || c = '(' || c = ')'

/-- The raw phone value assigned from the first phone-pattern match:
the first match of `patterns.phone`, else of `patterns.phoneAlt`, else the
empty string. -/
def rawPhoneMatch (garb : Char → Bool) (text : Str) : Str :=
  match mFirst phoneRE (cleanTextWith garb text) with
  | some m => m
  | none => (mFirst phoneAltRE (cleanTextWith garb text)).getD []

/-- Sample contact for the decode-precedence witness. -/
def c7ex : Contact := ⟨some ['A'], some ['9'], some [], none, none⟩

/-- One escaped chunk per input character, for inputs free of backslash and
carriage return. -/
def escChunk (c : Char) : Str :=
  if c = ';' then ['\\', ';']
  else if c = ',' then ['\\', ',']
  else if c = '\n' then ['\\', 'n']
  else [c]

/-- Chunk shape after the first unescape stage. -/
def chunk1 (c : Char) : Str :=
  if c = ';' then ['\\', ';'] else if c = ',' then ['\\', ','] else [c]

/-- Chunk shape after the second unescape stage. -/
def chunk2 (c : Char) : Str :=
  if c = ';' then ['\\', ';'] else [c]

/-- "Simple ASCII value containing no vCard-reserved characters": ASCII and
none of backslash, semicolon, comma, CR, LF (the claim's hypothesis). -/
def vSafeChar (c : Char) : Bool :=
  c.toNat < 128 && !(c = '\\' || c = ';' || c = ',' || c = '\r' || c = '\n')

/-- Additionally free of whitespace, parens and hyphens ("phone already free
of spaces/parens/hyphens"). -/
def phoneSafeChar (c : Char) : Bool :=
  vSafeChar c && !(isJsWs c || c = '-' || c = '(' || c = ')')

/-- Scanner for well-spaced names: `ntF a s` holds when `s` contains only
single ASCII blanks as whitespace, none adjacent, none at either end
(`a` records whether the previous position was a space or the start). -/
def ntF : Bool → Str → Bool
  | a, [] => !a
  | a, c :: rest =>
      if isJsWs c then (decide (c = ' ') && !a) && ntF true rest
      else ntF false rest

/-- The name hypothesis of the amended round trip: safe characters and
normalized single-space separation. -/
def simpleNameOK (s : Str) : Bool := s.all vSafeChar && ntF true s

/-! ## Properties of the cleaning scanners -/

theorem noPairP_tail {p : Char → Bool} {a : Char} {l : Str}
    (h : noPairP p (a :: l)) : noPairP p l := by
  cases l with
  | nil => trivial
  | cons b r => exact h.2

theorem noPairP_cons {p : Char → Bool} {a : Char} {l : Str}
    (hhd : ∀ b, l.head? = some b → ¬(p a = true ∧ p b = true))
    (hl : noPairP p l) : noPairP p (a :: l) := by
  cases l with
  | nil => trivial
  | cons b r => exact ⟨hhd b rfl, hl⟩

theorem noPairP_append_left {p : Char → Bool} :
    ∀ {u v : Str}, noPairP p (u ++ v) → noPairP p u
  | [], _, _ => trivial
  | [_], _, _ => trivial
  | _ :: b :: r, _, h => by
      obtain ⟨h1, h2⟩ := h
      exact ⟨h1, noPairP_append_left (u := b :: r) h2⟩

theorem noPairP_suffix {p : Char → Bool} :
    ∀ {u v : Str}, noPairP p (u ++ v) → noPairP p v
  | [], _, h => h
  | _ :: u, _, h => noPairP_suffix (u := u) (noPairP_tail h)

/-! ### `garbS` -/

theorem garbS_subset {p : Char → Bool} :
    ∀ {s : Str}, ∀ c ∈ garbS p s, c ∈ s ∨ c = ' ' := by
  intro s
  induction s using garbS.induct (p := p) with
  | case1 => intro c hc; simp [garbS] at hc
  | case2 a ha => intro c hc; simp [garbS, ha] at hc; right; exact hc
  | case3 a ha =>
      intro c hc
      simp only [Bool.not_eq_true] at ha
      simp [garbS, ha] at hc; left; simp [hc]
  | case4 a d rest ha hd ih =>
      intro c hc
      rw [garbS, if_pos ha, if_pos hd] at hc
      rcases ih c hc with h | h
      · left; exact List.mem_cons_of_mem _ h
      · right; exact h
  | case5 a d rest ha hd ih =>
      intro c hc
      simp only [Bool.not_eq_true] at hd
      rw [garbS, if_pos ha, if_neg (by simp [hd])] at hc
      rcases List.mem_cons.mp hc with h | h
      · right; exact h
      · rcases ih c h with h' | h'
        · left; exact List.mem_cons_of_mem _ h'
        · right; exact h'
  | case6 a d rest ha ih =>
      intro c hc
      simp only [Bool.not_eq_true] at ha
      rw [garbS, if_neg (by simp [ha])] at hc
      rcases List.mem_cons.mp hc with h | h
      · left; simp [h]
      · rcases ih c h with h' | h'
        · left; exact List.mem_cons_of_mem _ h'
        · right; exact h'

theorem garbS_clears {p : Char → Bool} (hsp : p ' ' = false) :
    ∀ {s : Str}, ∀ c ∈ garbS p s, p c = false := by
  intro s
  induction s using garbS.induct (p := p) with
  | case1 => intro c hc; simp [garbS] at hc
  | case2 a ha => intro c hc; simp [garbS, ha] at hc; rw [hc]; exact hsp
  | case3 a ha =>
      intro c hc
      simp only [Bool.not_eq_true] at ha
      simp [garbS, ha] at hc; rw [hc]; exact ha
  | case4 a d rest ha hd ih =>
      intro c hc
      rw [garbS, if_pos ha, if_pos hd] at hc
      exact ih c hc
  | case5 a d rest ha hd ih =>
      intro c hc
      simp only [Bool.not_eq_true] at hd
      rw [garbS, if_pos ha, if_neg (by simp [hd])] at hc
      rcases List.mem_cons.mp hc with h | h
      · rw [h]; exact hsp
      · exact ih c h
  | case6 a d rest ha ih =>
      intro c hc
      simp only [Bool.not_eq_true] at ha
      rw [garbS, if_neg (by simp [ha])] at hc
      rcases List.mem_cons.mp hc with h | h
      · rw [h]; exact ha
      · exact ih c h

theorem garbS_id {p : Char → Bool} :
    ∀ {s : Str}, (∀ c ∈ s, p c = false) → garbS p s = s := by
  intro s
  induction s using garbS.induct (p := p) with
  | case1 => intro _; rfl
  | case2 a ha =>
      intro h
      exact absurd ha (by simp [h a (List.mem_singleton.mpr rfl)])
  | case3 a ha =>
      intro h
      have ha' : p a = false := by simpa using ha
      simp [garbS, ha']
  | case4 a d rest ha hd ih =>
      intro h
      exact absurd ha (by simp [h a (List.mem_cons_self a _)])
  | case5 a d rest ha hd ih =>
      intro h
      exact absurd ha (by simp [h a (List.mem_cons_self a _)])
  | case6 a d rest ha ih =>
      intro h
      rw [garbS, if_neg ha, ih (fun c hc => h c (List.mem_cons_of_mem _ hc))]

theorem garbS_head_run {p : Char → Bool} :
    ∀ (r : Str) (d : Char), p d = true → (garbS p (d :: r)).head? = some ' '
  | [], d, hd => by simp [garbS, hd]
  | e :: r, d, hd => by
      by_cases he : p e = true
      · rw [garbS, if_pos hd, if_pos he]
        exact garbS_head_run r e he
      · rw [garbS, if_pos hd, if_neg (by simp [he])]
        rfl

theorem garbS_head_keep {p : Char → Bool} {d : Char} {r : Str}
    (hd : p d = false) : (garbS p (d :: r)).head? = some d := by
  cases r with
  | nil => simp [garbS, hd]
  | cons e r' => rw [garbS, if_neg (by simp [hd])]; rfl

theorem garbS_noPair {p q : Char → Bool} (hq : q ' ' = false) :
    ∀ {s : Str}, noPairP q s → noPairP q (garbS p s) := by
  intro s
  induction s using garbS.induct (p := p) with
  | case1 => intro _; trivial
  | case2 a ha => intro _; simp only [garbS, if_pos ha]; trivial
  | case3 a ha =>
      intro _
      have ha' : p a = false := by simpa using ha
      simp only [garbS, ha', Bool.false_eq_true, if_false]; trivial
  | case4 a d rest ha hd ih =>
      intro h
      rw [garbS, if_pos ha, if_pos hd]
      exact ih (noPairP_tail h)
  | case5 a d rest ha hd ih =>
      intro h
      simp only [Bool.not_eq_true] at hd
      rw [garbS, if_pos ha, if_neg (by simp [hd])]
      refine noPairP_cons (fun b hb => ?_) (ih (noPairP_tail h))
      rw [garbS_head_keep hd] at hb
      injection hb with hb'
      intro hcontra
      rw [hq] at hcontra
      exact absurd hcontra.1 (by simp)
  | case6 a d rest ha ih =>
      intro h
      simp only [Bool.not_eq_true] at ha
      rw [garbS, if_neg (by simp [ha])]
      refine noPairP_cons (fun b hb => ?_) (ih (noPairP_tail h))
      by_cases hd : p d = true
      · rw [garbS_head_run rest d hd] at hb
        injection hb with hb'
        intro hcontra
        rw [← hb', hq] at hcontra
        exact absurd hcontra.2 (by simp)
      · rw [garbS_head_keep (by simpa using hd)] at hb
        injection hb with hb'
        intro hcontra
        rw [← hb'] at hcontra
        exact h.1 hcontra

/-! ### `run2S` -/

theorem run2S_two {p : Char → Bool} {c d : Char} (hc : p c = true) (hd : p d = true) :
    run2S p [c, d] = [' '] := by simp [run2S, hc, hd]

theorem run2S_rr {p : Char → Bool} {c d e : Char} {t : Str}
    (hc : p c = true) (hd : p d = true) (he : p e = true) :
    run2S p (c :: d :: e :: t) = run2S p (d :: e :: t) := by
  simp [run2S, hc, hd, he]

theorem run2S_rend {p : Char → Bool} {c d e : Char} {t : Str}
    (hc : p c = true) (hd : p d = true) (he : p e = false) :
    run2S p (c :: d :: e :: t) = ' ' :: run2S p (e :: t) := by
  simp [run2S, hc, hd, he]

theorem run2S_keep2 {p : Char → Bool} {c d : Char} {rest : Str}
    (hc : p c = true) (hd : p d = false) :
    run2S p (c :: d :: rest) = c :: run2S p (d :: rest) := by
  simp [run2S, hc, hd]

theorem run2S_keep1 {p : Char → Bool} {c d : Char} {rest : Str}
    (hc : p c = false) :
    run2S p (c :: d :: rest) = c :: run2S p (d :: rest) := by
  simp [run2S, hc]

theorem run2S_head_keep {p : Char → Bool} {d : Char} {r : Str}
    (hd : p d = false) : (run2S p (d :: r)).head? = some d := by
  cases r with
  | nil => rfl
  | cons e r' => rw [run2S_keep1 hd]; rfl

theorem run2S_head_run {p : Char → Bool} :
    ∀ (r : Str) (c d : Char), p c = true → p d = true →
      (run2S p (c :: d :: r)).head? = some ' '
  | [], c, d, hc, hd => by rw [run2S_two hc hd]; rfl
  | e :: t, c, d, hc, hd => by
      by_cases he : p e = true
      · rw [run2S_rr hc hd he]; exact run2S_head_run t d e hd he
      · rw [run2S_rend hc hd (by simpa using he)]; rfl

theorem run2S_headD {p : Char → Bool} (d : Char) (r : Str) :
    (run2S p (d :: r)).head? = some d ∨ (run2S p (d :: r)).head? = some ' ' := by
  by_cases hd : p d = true
  · cases r with
    | nil => left; rfl
    | cons e t =>
        by_cases he : p e = true
        · right; exact run2S_head_run t d e hd he
        · left; rw [run2S_keep2 hd (by simpa using he)]; rfl
  · left; exact run2S_head_keep (by simpa using hd)

theorem run2S_subset {p : Char → Bool} :
    ∀ {s : Str}, ∀ c ∈ run2S p s, c ∈ s ∨ c = ' ' := by
  intro s
  induction s using run2S.induct (p := p) with
  | case1 => intro c hc; simp [run2S] at hc
  | case2 a => intro c hc; simp [run2S] at hc; left; simp [hc]
  | case3 a d ha hd e t he ih =>
      intro c hc
      rw [run2S_rr ha hd he] at hc
      rcases ih c hc with h | h
      · left; exact List.mem_cons_of_mem _ h
      · right; exact h
  | case4 a d ha hd e t he ih =>
      intro c hc
      rw [run2S_rend ha hd (by simpa using he)] at hc
      rcases List.mem_cons.mp hc with h | h
      · right; exact h
      · rcases ih c h with h' | h'
        · left; exact List.mem_cons_of_mem _ (List.mem_cons_of_mem _ h')
        · right; exact h'
  | case5 a d ha hd =>
      intro c hc
      rw [run2S_two ha hd] at hc
      simp at hc; right; exact hc
  | case6 a d rest ha hd ih =>
      intro c hc
      rw [run2S_keep2 ha (by simpa using hd)] at hc
      rcases List.mem_cons.mp hc with h | h
      · left; simp [h]
      · rcases ih c h with h' | h'
        · left; exact List.mem_cons_of_mem _ h'
        · right; exact h'
  | case7 a d rest ha ih =>
      intro c hc
      rw [run2S_keep1 (by simpa using ha)] at hc
      rcases List.mem_cons.mp hc with h | h
      · left; simp [h]
      · rcases ih c h with h' | h'
        · left; exact List.mem_cons_of_mem _ h'
        · right; exact h'

theorem run2S_noPair_self {p : Char → Bool} :
    ∀ {s : Str}, noPairP p (run2S p s) := by
  intro s
  induction s using run2S.induct (p := p) with
  | case1 => trivial
  | case2 a => trivial
  | case3 a d ha hd e t he ih => rw [run2S_rr ha hd he]; exact ih
  | case4 a d ha hd e t he ih =>
      have he' : p e = false := by simpa using he
      rw [run2S_rend ha hd he']
      refine noPairP_cons (fun b hb => ?_) ih
      rw [run2S_head_keep he'] at hb
      injection hb with hb'
      intro hcontra
      rw [← hb'] at hcontra
      rw [he'] at hcontra
      exact absurd hcontra.2 (by simp)
  | case5 a d ha hd => rw [run2S_two ha hd]; trivial
  | case6 a d rest ha hd ih =>
      have hd' : p d = false := by simpa using hd
      rw [run2S_keep2 ha hd']
      refine noPairP_cons (fun b hb => ?_) ih
      rw [run2S_head_keep hd'] at hb
      injection hb with hb'
      intro hcontra
      rw [← hb', hd'] at hcontra
      exact absurd hcontra.2 (by simp)
  | case7 a d rest ha ih =>
      have ha' : p a = false := by simpa using ha
      rw [run2S_keep1 ha']
      refine noPairP_cons (fun b hb => ?_) ih
      intro hcontra
      rw [ha'] at hcontra
      exact absurd hcontra.1 (by simp)

theorem run2S_id {p : Char → Bool} :
    ∀ {s : Str}, noPairP p s → run2S p s = s := by
  intro s
  induction s using run2S.induct (p := p) with
  | case1 => intro _; rfl
  | case2 a => intro _; rfl
  | case3 a d ha hd e t he ih => intro h; exact absurd ⟨ha, hd⟩ h.1
  | case4 a d ha hd e t he ih => intro h; exact absurd ⟨ha, hd⟩ h.1
  | case5 a d ha hd => intro h; exact absurd ⟨ha, hd⟩ h.1
  | case6 a d rest ha hd ih =>
      intro h
      rw [run2S_keep2 ha (by simpa using hd), ih (noPairP_tail h)]
  | case7 a d rest ha ih =>
      intro h
      rw [run2S_keep1 (by simpa using ha), ih (noPairP_tail h)]

theorem run2S_noPair {p q : Char → Bool} (hq : q ' ' = false) :
    ∀ {s : Str}, noPairP q s → noPairP q (run2S p s) := by
  intro s
  induction s using run2S.induct (p := p) with
  | case1 => intro _; trivial
  | case2 a => intro _; trivial
  | case3 a d ha hd e t he ih =>
      intro h
      rw [run2S_rr ha hd he]
      exact ih (noPairP_tail h)
  | case4 a d ha hd e t he ih =>
      intro h
      have he' : p e = false := by simpa using he
      rw [run2S_rend ha hd he']
      refine noPairP_cons (fun b hb => ?_) (ih (noPairP_tail (noPairP_tail h)))
      intro hcontra
      rw [hq] at hcontra
      exact absurd hcontra.1 (by simp)
  | case5 a d ha hd =>
      intro h
      rw [run2S_two ha hd]; trivial
  | case6 a d rest ha hd ih =>
      intro h
      have hd' : p d = false := by simpa using hd
      rw [run2S_keep2 ha hd']
      refine noPairP_cons (fun b hb => ?_) (ih (noPairP_tail h))
      rw [run2S_head_keep hd'] at hb
      injection hb with hb'
      rw [← hb']
      exact h.1
  | case7 a d rest ha ih =>
      intro h
      rw [run2S_keep1 (by simpa using ha)]
      refine noPairP_cons (fun b hb => ?_) (ih (noPairP_tail h))
      rcases run2S_headD (p := p) d rest with hD | hD
      · rw [hD] at hb
        injection hb with hb'
        rw [← hb']
        exact h.1
      · rw [hD] at hb
        injection hb with hb'
        intro hcontra
        rw [← hb', hq] at hcontra
        exact absurd hcontra.2 (by simp)

/-! ### Maps, `dropEndWhile`, `jsTrim`, `edgeStrip` -/

theorem map_sp_subset {f : Char → Char} (hf : ∀ c, f c = c ∨ f c = ' ') :
    ∀ {s : Str}, ∀ c ∈ s.map f, c ∈ s ∨ c = ' ' := by
  intro s c hc
  rcases List.mem_map.mp hc with ⟨a, ha, rfl⟩
  rcases hf a with h | h
  · left; rw [h]; exact ha
  · right; exact h

theorem map_sp_noPair {f : Char → Char} {q : Char → Bool}
    (hq : q ' ' = false) (hf : ∀ c, f c = c ∨ f c = ' ') :
    ∀ {s : Str}, noPairP q s → noPairP q (s.map f) := by
  intro s
  induction s with
  | nil => intro _; trivial
  | cons a l ih =>
      intro h
      cases l with
      | nil => trivial
      | cons b r =>
          refine ⟨?_, ih (noPairP_tail h)⟩
          intro hcontra
          rcases hf a with ha | ha <;> rcases hf b with hb | hb <;>
            rw [ha, hb] at hcontra
          · exact h.1 hcontra
          · rw [hq] at hcontra; exact absurd hcontra.2 (by simp)
          · rw [hq] at hcontra; exact absurd hcontra.1 (by simp)
          · rw [hq] at hcontra; exact absurd hcontra.1 (by simp)

theorem map_id_pred {f : Char → Char} {p : Char → Bool}
    (hf : ∀ c, p c = true → f c = c) :
    ∀ {s : Str}, (∀ c ∈ s, p c = true) → s.map f = s := by
  intro s
  induction s with
  | nil => intro _; rfl
  | cons a l ih =>
      intro h
      simp only [List.map_cons]
      rw [hf a (h a (List.mem_cons_self a l)),
        ih (fun c hc => h c (List.mem_cons_of_mem _ hc))]

theorem dropEndWhile_isPrefix {p : Char → Bool} {s : Str} :
    dropEndWhile p s <+: s := by
  unfold dropEndWhile
  rw [← List.reverse_suffix, List.reverse_reverse]
  exact List.dropWhile_suffix p

theorem dropEndWhile_subset {p : Char → Bool} {s : Str} :
    ∀ c ∈ dropEndWhile p s, c ∈ s :=
  fun _ hc => dropEndWhile_isPrefix.subset hc

theorem dropEndWhile_getLast {p : Char → Bool} {s : Str} {c : Char}
    (h : (dropEndWhile p s).getLast? = some c) : p c = false := by
  unfold dropEndWhile at h
  rw [List.getLast?_reverse] at h
  have := List.head?_dropWhile_not p s.reverse
  rw [h] at this
  simpa using this

theorem dropEndWhile_head {p : Char → Bool} {s : Str} {c : Char}
    (h : (dropEndWhile p s).head? = some c) : s.head? = some c := by
  obtain ⟨r, hr⟩ := dropEndWhile_isPrefix (p := p) (s := s)
  cases hu : dropEndWhile p s with
  | nil => rw [hu] at h; simp at h
  | cons x t =>
      rw [hu] at h hr
      rw [← hr]
      simpa using h

theorem dropEndWhile_id {p : Char → Bool} {s : Str}
    (h : ∀ c, s.getLast? = some c → p c = false) : dropEndWhile p s = s := by
  unfold dropEndWhile
  cases hs : s.reverse with
  | nil =>
      have : s = [] := by simpa using congrArg List.reverse hs
      simp [this]
  | cons x t =>
      have hx : s.getLast? = some x := by
        have h2 := List.getLast?_reverse (l := s.reverse)
        rw [List.reverse_reverse] at h2
        rw [h2, hs]; rfl
      rw [List.dropWhile_cons]
      simp only [h x hx, Bool.false_eq_true, if_false]
      rw [← hs, List.reverse_reverse]

theorem dropEndWhile_noPair {p q : Char → Bool} {s : Str}
    (h : noPairP q s) : noPairP q (dropEndWhile p s) := by
  obtain ⟨r, hr⟩ := dropEndWhile_isPrefix (p := p) (s := s)
  exact noPairP_append_left (v := r) (by rw [hr]; exact h)

theorem dropWhile_noPair {p q : Char → Bool} {s : Str}
    (h : noPairP q s) : noPairP q (List.dropWhile p s) := by
  obtain ⟨u, hu⟩ := List.dropWhile_suffix p (l := s)
  exact noPairP_suffix (u := u) (by rw [hu]; exact h)

theorem dropWhile_id {p : Char → Bool} {s : Str}
    (h : ∀ c, s.head? = some c → p c = false) : List.dropWhile p s = s := by
  cases s with
  | nil => rfl
  | cons a l => rw [List.dropWhile_cons, h a rfl]; simp

theorem jsTrim_subset {s : Str} : ∀ c ∈ jsTrim s, c ∈ s := by
  intro c hc
  unfold jsTrim at hc
  exact (List.dropWhile_suffix isJsWs).subset (dropEndWhile_subset c hc)

theorem jsTrim_head {s : Str} {c : Char}
    (h : (jsTrim s).head? = some c) : isJsWs c = false := by
  unfold jsTrim at h
  have h2 := dropEndWhile_head h
  have := List.head?_dropWhile_not isJsWs s
  rw [h2] at this
  simpa using this

theorem jsTrim_last {s : Str} {c : Char}
    (h : (jsTrim s).getLast? = some c) : isJsWs c = false :=
  dropEndWhile_getLast h

theorem jsTrim_noPair {q : Char → Bool} {s : Str}
    (h : noPairP q s) : noPairP q (jsTrim s) :=
  dropEndWhile_noPair (dropWhile_noPair h)

theorem jsTrim_id {s : Str}
    (hh : ∀ c, s.head? = some c → isJsWs c = false)
    (hl : ∀ c, s.getLast? = some c → isJsWs c = false) : jsTrim s = s := by
  unfold jsTrim
  rw [dropWhile_id hh]
  exact dropEndWhile_id hl

theorem edgeStrip_subset {s : Str} : ∀ c ∈ edgeStrip s, c ∈ s := by
  intro c hc
  unfold edgeStrip at hc
  exact (List.dropWhile_suffix _).subset (dropEndWhile_subset c hc)

theorem edgeStrip_id {s : Str}
    (h : ∀ c ∈ s, isEdgeOK c = true) : edgeStrip s = s := by
  unfold edgeStrip
  rw [dropWhile_id (fun c hc => by
    simp [h c (List.mem_of_mem_head? (by rw [hc]; simp))])]
  exact dropEndWhile_id (fun c hc => by
    simp [h c (List.mem_of_mem_getLast? (by rw [hc]; simp))])

/-! ### Invariants of the cleaning pipeline output -/

theorem keepMapF_sp : ∀ c : Char, (if isKeep c then c else ' ') = c ∨ (if isKeep c then c else ' ') = ' ' := by
  intro c
  by_cases h : isKeep c = true <;> simp [h]

theorem keepMap_keeps {s : Str} : ∀ c ∈ keepMap s, isKeep c = true := by
  intro c hc
  rcases List.mem_map.mp hc with ⟨a, _, rfl⟩
  by_cases h : isKeep a = true <;> simp [h]
  decide

theorem cleanTextWith_chars {garb : Char → Bool} (hga : garb ' ' = false) {s : Str} :
    ∀ c ∈ cleanTextWith garb s, isKeep c = true ∧ garb c = false ∧ isNonAscii c = false := by
  intro c hc
  unfold cleanTextWith at hc
  have h8 := jsTrim_subset c hc
  rcases run2S_subset c h8 with h7 | rfl
  · have hkeep : isKeep c = true := keepMap_keeps c h7
    rcases map_sp_subset keepMapF_sp c h7 with h6 | rfl
    · have hna : isNonAscii c = false := garbS_clears (by decide) c h6
      rcases garbS_subset c h6 with h5 | rfl
      · rcases run2S_subset c h5 with h4 | rfl
        · rcases run2S_subset c h4 with h3 | rfl
          · exact ⟨hkeep, garbS_clears hga c h3, hna⟩
          · exact ⟨hkeep, hga, hna⟩
        · exact ⟨hkeep, hga, hna⟩
      · exact ⟨hkeep, hga, by decide⟩
    · exact ⟨hkeep, hga, by decide⟩
  · exact ⟨by decide, hga, by decide⟩

theorem cleanTextWith_noDashPair {garb : Char → Bool} {s : Str} :
    noPairP isDashU (cleanTextWith garb s) := by
  unfold cleanTextWith
  exact jsTrim_noPair (run2S_noPair (by decide)
    (map_sp_noPair (by decide) keepMapF_sp
      (garbS_noPair (by decide)
        (run2S_noPair (by decide) run2S_noPair_self))))

theorem cleanTextWith_noWsPair {garb : Char → Bool} {s : Str} :
    noPairP isJsWs (cleanTextWith garb s) := by
  unfold cleanTextWith
  exact jsTrim_noPair run2S_noPair_self

theorem isUDash_nonAscii {c : Char} (h : isUDash c = true) : isNonAscii c = true := by
  unfold isUDash at h
  unfold isNonAscii
  simp only [Bool.and_eq_true, decide_eq_true_eq] at h ⊢
  omega

theorem edgeOK_of_keep {garb : Char → Bool} (hgu : garb '_' = true) (hgp : garb '+' = true)
    {c : Char} (hk : isKeep c = true) (hg : garb c = false) : isEdgeOK c = true := by
  have hne1 : ¬(c = '_') := fun h => by rw [h, hgu] at hg; simp at hg
  have hne2 : ¬(c = '+') := fun h => by rw [h, hgp] at hg; simp at hg
  unfold isKeep isWordC at hk
  unfold isEdgeOK
  simp only [Bool.or_eq_true, decide_eq_true_eq] at hk ⊢
  tauto

/-- Idempotence of the cleaning pipeline: on its own output every stage is
the identity. -/
theorem cleanTextWith_idem {garb : Char → Bool}
    (hga : garb ' ' = false) (hgu : garb '_' = true) (hgp : garb '+' = true)
    (s : Str) :
    cleanTextWith garb (cleanTextWith garb s) = cleanTextWith garb s := by
  set o := cleanTextWith garb s with ho
  have hch := cleanTextWith_chars hga (s := s)
  rw [← ho] at hch
  have hdash : noPairP isDashU o := cleanTextWith_noDashPair
  have hws : noPairP isJsWs o := cleanTextWith_noWsPair
  have h1 : dashMap o = o := by
    unfold dashMap
    refine map_id_pred (p := fun c => !isUDash c)
      (fun c hpc => by
        simp only [Bool.not_eq_true'] at hpc
        simp [hpc]) ?_
    intro c hc
    have := (hch c hc).2.2
    by_cases hu : isUDash c = true
    · rw [isUDash_nonAscii hu] at this; simp at this
    · simpa using hu
  have h2 : edgeStrip o = o :=
    edgeStrip_id (fun c hc => edgeOK_of_keep hgu hgp (hch c hc).1 (hch c hc).2.1)
  have h3 : garbS garb o = o := garbS_id (fun c hc => (hch c hc).2.1)
  have h4 : run2S isDashU o = o := run2S_id hdash
  have h5 : run2S isJsWs o = o := run2S_id hws
  have h6 : nonAsciiS o = o := garbS_id (fun c hc => (hch c hc).2.2)
  have h7 : keepMap o = o := by
    unfold keepMap
    exact map_id_pred (p := isKeep) (fun c hpc => by simp [hpc]) (fun c hc => (hch c hc).1)
  have h9 : jsTrim o = o := by
    refine jsTrim_id (fun c hc => ?_) (fun c hc => ?_)
    · rw [ho] at hc
      unfold cleanTextWith at hc
      exact jsTrim_head hc
    · rw [ho] at hc
      unfold cleanTextWith at hc
      exact jsTrim_last hc
  calc cleanTextWith garb o
      = jsTrim (run2S isJsWs (keepMap (nonAsciiS (run2S isJsWs (run2S isDashU
          (garbS garb (edgeStrip (dashMap o)))))))) := rfl
    _ = o := by rw [h1, h2, h3, h4, h5, h6, h7, h5, h9]

/-! ## Claim C9 and C4 -/

/-- C9: `normalize` is idempotent: for every string `s`,
`normalize(normalize(s)) = normalize(s)`, for both the web
(`OCRProcessor.cleanText`) and the mobile (`ContactParser.cleanText`) copy. -/
theorem c9_normalize_idempotent :
    (∀ s : Str, OCRProcessor.cleanText (OCRProcessor.cleanText s) = OCRProcessor.cleanText s) ∧
    (∀ s : Str, ContactParser.cleanText (ContactParser.cleanText s) = ContactParser.cleanText s) :=
  ⟨fun s => cleanTextWith_idem (by decide) (by decide) (by decide) s,
   fun s => cleanTextWith_idem (by decide) (by decide) (by decide) s⟩

/-- C4: contrary to the claim, the garbage-punctuation replacement step of
`cleanText` has `+` inside its character class in both copies, so an
interior `+` is replaced by a space and does not survive normalization:
`cleanText "a+b" = "a b"`, and the international prefix of
`"+44 20 7946 0958"` is destroyed. -/
theorem c4_plus_in_garbage_class :
    webGarb '+' = true ∧ mobGarb '+' = true ∧
    OCRProcessor.cleanText ("a+b".data) = "a b".data ∧
    ContactParser.cleanText ("a+b".data) = "a b".data ∧
    OCRProcessor.cleanText ("+44 20 7946 0958".data) = "44 20 7946 0958".data :=
  ⟨by decide, by decide, by decide, by decide, by decide⟩

/-! ## Alphabet windows of the matcher (towards C10)

If every character class and literal of a regex lies inside an alphabet `A`,
then every character the matcher consumes lies in `A` (and is a character of
the subject string). -/

theorem winA_mono {A : Char → Bool} {s : Str} {a a' b : Nat}
    (h : winA A s a b) (ha : a ≤ a') : winA A s a' b :=
  fun t ht1 ht2 => h t (le_trans ha ht1) ht2

theorem winA_glue {A : Char → Bool} {s : Str} {a m b : Nat}
    (h1 : winA A s a m) (h2 : winA A s m b) : winA A s a b := by
  intro t ht1 ht2
  by_cases hm : t < m
  · exact h1 t ht1 hm
  · exact h2 t (le_of_not_lt hm) ht2

theorem kGoodA_mono {A : Char → Bool} {s : Str} {k : Nat → Option Nat} {i m : Nat}
    (h : kGoodA A s k i) (him : i ≤ m) : kGoodA A s k m :=
  fun m' j hm' => h m' j (le_trans him hm')

theorem litAt_win {s cs : Str} {i : Nat} (h : litAt s i cs = true) :
    ∀ t, t < cs.length → ∃ c, s.get? (i + t) = some c ∧ c ∈ cs := by
  intro t ht
  unfold litAt at h
  obtain ⟨r, hr⟩ := List.isPrefixOf_iff_prefix.mp h
  have h1 : (s.drop i).get? t = cs.get? t := by
    rw [← hr, List.get?_append (by simpa using ht)]
  rcases hcc : cs.get? t with _ | c
  · rw [List.get?_eq_none] at hcc; omega
  · refine ⟨c, ?_, List.get?_mem hcc⟩
    rw [List.get?_drop] at h1
    rw [h1, hcc]

theorem litAtCI_win {s cs : Str} {i : Nat} (h : litAtCI s i cs = true) :
    ∀ t, t < cs.length → ∃ c d, s.get? (i + t) = some c ∧ d ∈ cs ∧ lowChar c = lowChar d := by
  intro t ht
  unfold litAtCI at h
  obtain ⟨r, hr⟩ := List.isPrefixOf_iff_prefix.mp h
  have hlen : t < (toLowerA cs).length := by simpa [toLowerA] using ht
  have h1 : (toLowerA (s.drop i)).get? t = (toLowerA cs).get? t := by
    rw [← hr, List.get?_append hlen]
  rcases hcc : cs.get? t with _ | d
  · rw [List.get?_eq_none] at hcc; omega
  · rcases hsc : s.get? (i + t) with _ | c
    · exfalso
      rw [List.get?_eq_none] at hsc
      have h2 : (toLowerA (s.drop i)).get? t = none := by
        rw [List.get?_eq_none]
        simp only [toLowerA, List.length_map, List.length_drop]
        omega
      rw [h2] at h1
      have h3 := List.get?_eq_none.mp h1.symm
      omega
    · refine ⟨c, d, rfl, List.get?_mem hcc, ?_⟩
      have hc1 : (toLowerA (s.drop i)).get? t = some (lowChar c) := by
        simp only [toLowerA, List.get?_map, List.get?_drop, hsc]
        rfl
      have hc2 : (toLowerA cs).get? t = some (lowChar d) := by
        simp only [toLowerA, List.get?_map, hcc]
        rfl
      rw [hc1, hc2] at h1
      injection h1

theorem runLen_win {p : Char → Bool} {s : Str} {i : Nat} :
    ∀ t, t < runLen p s i → ∃ c, s.get? (i + t) = some c ∧ p c = true := by
  intro t ht
  unfold runLen at ht
  set l := s.drop i with hl
  obtain ⟨r, hr⟩ := (List.takeWhile_prefix (l := l) (p := p))
  rcases hcc : (l.takeWhile p).get? t with _ | c
  · rw [List.get?_eq_none] at hcc; omega
  · refine ⟨c, ?_, List.mem_takeWhile_imp (List.get?_mem hcc)⟩
    have h1 : l.get? t = some c := by
      rw [← hr, List.get?_append (by simpa using ht), hcc]
    rw [← h1, hl, List.get?_drop]

theorem tryRep_win {A : Char → Bool} {s : Str} {k : Nat → Option Nat}
    {p : Char → Bool} {i lo : Nat}
    (hok : ∀ c, p c = true → A c = true)
    (hk : kGoodA A s k i) :
    ∀ (j0 j : Nat), j0 ≤ runLen p s i → tryRep k i lo j0 = some j →
      i ≤ j ∧ winA A s i j := by
  intro j0
  induction j0 with
  | zero =>
      intro j hrun htr
      unfold tryRep at htr
      by_cases hlo : lo = 0
      · rw [if_pos hlo] at htr
        have := hk i j (le_refl i) htr
        exact ⟨this.1, this.2⟩
      · rw [if_neg hlo] at htr; exact absurd htr (by simp)
  | succ j0 ih =>
      intro j hrun htr
      unfold tryRep at htr
      by_cases hlo : j0 + 1 < lo
      · rw [if_pos hlo] at htr; exact absurd htr (by simp)
      · rw [if_neg hlo] at htr
        rcases hkk : k (i + j0 + 1) with _ | r
        · rw [hkk] at htr
          exact ih j (by omega) htr
        · rw [hkk] at htr
          injection htr with hjr
          have h1 := hk (i + j0 + 1) r (by omega) hkk
          rw [hjr] at h1
          obtain ⟨h1a, h1b⟩ := h1
          refine ⟨by omega, winA_glue (m := i + j0 + 1) ?_ h1b⟩
          intro t ht1 ht2
          obtain ⟨c, hc, hpc⟩ := runLen_win (p := p) (s := s) (i := i) (t - i) (by omega)
          refine ⟨c, ?_, hok c hpc⟩
          rw [← hc]
          congr 1
          omega

theorem mtch_win {A : Char → Bool} {s : Str} :
    ∀ (r : RE) (i : Nat) (k : Nat → Option Nat) (j : Nat),
      REok A r → kGoodA A s k i → mtch r s i k = some j →
      i ≤ j ∧ winA A s i j := by
  intro r
  induction r with
  | cls p =>
      intro i k j hok hk hm
      unfold mtch at hm
      rcases hg : s.get? i with _ | c
      · rw [hg] at hm; dsimp only at hm; exact absurd hm (by simp)
      · rw [hg] at hm
        dsimp only at hm
        by_cases hp : p c = true
        · rw [if_pos hp] at hm
          obtain ⟨h1, h2⟩ := hk (i + 1) j (by omega) hm
          refine ⟨by omega, winA_glue (m := i + 1) ?_ h2⟩
          intro t ht1 ht2
          have : t = i := by omega
          subst this
          exact ⟨c, hg, hok c hp⟩
        · rw [if_neg hp] at hm; exact absurd hm (by simp)
  | lit cs =>
      intro i k j hok hk hm
      unfold mtch at hm
      by_cases hl : litAt s i cs = true
      · rw [if_pos hl] at hm
        obtain ⟨h1, h2⟩ := hk (i + cs.length) j (by omega) hm
        refine ⟨by omega, winA_glue (m := i + cs.length) ?_ h2⟩
        intro t ht1 ht2
        obtain ⟨c, hc, hcm⟩ := litAt_win hl (t - i) (by omega)
        rw [show i + (t - i) = t by omega] at hc
        exact ⟨c, hc, hok c hcm⟩
      · rw [if_neg hl] at hm; exact absurd hm (by simp)
  | liti cs =>
      intro i k j hok hk hm
      unfold mtch at hm
      by_cases hl : litAtCI s i cs = true
      · rw [if_pos hl] at hm
        obtain ⟨h1, h2⟩ := hk (i + cs.length) j (by omega) hm
        refine ⟨by omega, winA_glue (m := i + cs.length) ?_ h2⟩
        intro t ht1 ht2
        obtain ⟨c, d, hc, hdm, hlow⟩ := litAtCI_win hl (t - i) (by omega)
        rw [show i + (t - i) = t by omega] at hc
        exact ⟨c, hc, hok c d hdm hlow⟩
      · rw [if_neg hl] at hm; exact absurd hm (by simp)
  | opt r ih =>
      intro i k j hok hk hm
      unfold mtch at hm
      rcases hi : mtch r s i k with _ | e
      · rw [hi] at hm
        dsimp only at hm
        obtain ⟨h1, h2⟩ := hk i j (le_refl i) hm
        exact ⟨h1, h2⟩
      · rw [hi] at hm
        dsimp only at hm
        injection hm with hm'
        subst hm'
        exact ih i k e hok hk hi
  | alt2 a b iha ihb =>
      intro i k j hok hk hm
      unfold mtch at hm
      rcases hi : mtch a s i k with _ | e
      · rw [hi] at hm
        dsimp only at hm
        exact ihb i k j hok.2 hk hm
      · rw [hi] at hm
        dsimp only at hm
        injection hm with hm'
        subst hm'
        exact iha i k e hok.1 hk hi
  | seq2 a b iha ihb =>
      intro i k j hok hk hm
      unfold mtch at hm
      refine iha i _ j hok.1 ?_ hm
      intro m j' him hmb
      obtain ⟨h1, h2⟩ := ihb m k j' hok.2 (kGoodA_mono hk him) hmb
      exact ⟨h1, h2⟩
  | rep p lo hi =>
      intro i k j hok hk hm
      unfold mtch at hm
      rcases hi with _ | h
      · exact tryRep_win hok hk _ j (le_refl _) hm
      · exact tryRep_win hok hk _ j (min_le_right _ _) hm
  | wb =>
      intro i k j hok hk hm
      unfold mtch at hm
      by_cases hb : atWB s i = true
      · rw [if_pos hb] at hm
        obtain ⟨h1, h2⟩ := hk i j (le_refl i) hm
        exact ⟨h1, h2⟩
      · rw [if_neg hb] at hm; exact absurd hm (by simp)

/-- The trivial continuation `some` is alphabet-good. -/
theorem kGoodA_some {A : Char → Bool} {s : Str} (i0 : Nat) : kGoodA A s some i0 := by
  intro m j _ hmj
  injection hmj with h
  subst h
  exact ⟨le_refl m, fun t ht1 ht2 => absurd ht2 (by omega)⟩

/-- First-match window: a successful scan yields a window of `A`-characters. -/
theorem scanFrom_win {A : Char → Bool} {s : Str} {r : RE} {i a b : Nat}
    (hok : REok A r) (hs : scanFrom r s i = some (a, b)) :
    a ≤ b ∧ winA A s a b := by
  unfold scanFrom at hs
  generalize s.length + 1 - i = fuel at hs
  induction fuel generalizing i with
  | zero => exact absurd hs (by simp [scanFrom.go])
  | succ n ih =>
      unfold scanFrom.go at hs
      rcases hm : mtch r s i some with _ | e
      · rw [hm] at hs
        dsimp only at hs
        exact ih hs
      · rw [hm] at hs
        dsimp only at hs
        injection hs with hs'
        have h1 : i = a := congrArg Prod.fst hs'
        have h2 : e = b := congrArg Prod.snd hs'
        subst h1
        subst h2
        exact mtch_win r i some e hok (kGoodA_some i) hm

/-- Characters of a slice come from in-window positions of the source. -/
theorem subSlice_mem {s : Str} {a b : Nat} {c : Char} (hc : c ∈ subSlice s a b) :
    ∃ t, a ≤ t ∧ t < b ∧ s.get? t = some c := by
  unfold subSlice at hc
  obtain ⟨t, hg⟩ := List.mem_iff_get?.mp hc
  have htl : t < b - a := by
    obtain ⟨h2, -⟩ := List.get?_eq_some.mp hg
    simp only [List.length_take] at h2
    omega
  rw [List.get?_take htl] at hg
  rw [List.get?_drop] at hg
  exact ⟨a + t, by omega, by omega, hg⟩

/-- Every character of a first match of `r` lies in `r`'s alphabet and in the
subject string. -/
theorem mFirst_chars {A : Char → Bool} {s : Str} {r : RE} {m : Str}
    (hok : REok A r) (hm : mFirst r s = some m) :
    ∀ c ∈ m, A c = true ∧ c ∈ s := by
  intro c hc
  unfold mFirst at hm
  rcases hsc : scanFrom r s 0 with _ | ab
  · rw [hsc] at hm; exact absurd hm (by simp)
  · rw [hsc] at hm
    dsimp only at hm
    injection hm with hm'
    subst hm'
    obtain ⟨hab, hwin⟩ := scanFrom_win hok (by rw [hsc])
    obtain ⟨t, ht1, ht2, hg⟩ := subSlice_mem hc
    obtain ⟨c', hc', hA⟩ := hwin t ht1 ht2
    rw [hg] at hc'
    injection hc' with hcc
    subst hcc
    exact ⟨hA, List.get?_mem hg⟩

/-! ## Field-level facts about the extraction pipeline -/

theorem resolveNC_phone (ct : Str → Str) (cls : List Cls) (c : Contact) :
    (resolveNC ct cls c).phone = c.phone := by
  unfold resolveNC
  dsimp only
  repeat' split <;> try rfl

theorem resolveNC_email (ct : Str → Str) (cls : List Cls) (c : Contact) :
    (resolveNC ct cls c).email = c.email := by
  unfold resolveNC
  dsimp only
  repeat' split <;> try rfl

theorem resolveNC_eventTag (ct : Str → Str) (cls : List Cls) (c : Contact) :
    (resolveNC ct cls c).eventTag = c.eventTag := by
  unfold resolveNC
  dsimp only
  repeat' split <;> try rfl

theorem resolveNC_name_isSome (ct : Str → Str) (cls : List Cls) (c : Contact)
    (h : c.name.isSome = true) : (resolveNC ct cls c).name.isSome = true := by
  unfold resolveNC
  dsimp only
  repeat' split <;> simp_all

theorem resolveNC_company_isSome (ct : Str → Str) (cls : List Cls) (c : Contact)
    (h : c.company.isSome = true) : (resolveNC ct cls c).company.isSome = true := by
  unfold resolveNC
  dsimp only
  repeat' split <;> simp_all

/-- The phone field assigned by the extraction body is the trimmed first
match of the primary phone pattern, else of the fallback pattern, else the
initial empty string. -/
theorem extractBaseS_phone (ct : Str → Str) (st : PatState) (text : Str) :
    (extractBaseS ct st text).1.phone =
      (match mFirst phoneRE (ct text) with
       | some m => some (jsTrim m)
       | none =>
          match mFirst phoneAltRE (ct text) with
          | some m => some (jsTrim m)
          | none => some []) := by
  unfold extractBaseS
  dsimp only
  rw [resolveNC_phone]
  rcases he : mFirst emailRE (ct text) with _ | m1 <;>
    rcases hp : mFirst phoneRE (ct text) with _ | m2 <;>
      rcases ha : mFirst phoneAltRE (ct text) with _ | m3 <;>
        simp [he, hp, ha, initCI]

theorem extractBaseS_email_isSome (ct : Str → Str) (st : PatState) (text : Str) :
    (extractBaseS ct st text).1.email.isSome = true := by
  unfold extractBaseS
  dsimp only
  rw [resolveNC_email]
  rcases he : mFirst emailRE (ct text) with _ | m1 <;>
    rcases hp : mFirst phoneRE (ct text) with _ | m2 <;>
      rcases ha : mFirst phoneAltRE (ct text) with _ | m3 <;>
        simp [he, hp, ha, initCI]

theorem extractBaseS_eventTag (ct : Str → Str) (st : PatState) (text : Str) :
    (extractBaseS ct st text).1.eventTag = none := by
  unfold extractBaseS
  dsimp only
  rw [resolveNC_eventTag]
  rcases he : mFirst emailRE (ct text) with _ | m1 <;>
    rcases hp : mFirst phoneRE (ct text) with _ | m2 <;>
      rcases ha : mFirst phoneAltRE (ct text) with _ | m3 <;>
        simp [he, hp, ha, initCI]

theorem extractBaseS_name_isSome (ct : Str → Str) (st : PatState) (text : Str) :
    (extractBaseS ct st text).1.name.isSome = true := by
  unfold extractBaseS
  dsimp only
  refine resolveNC_name_isSome _ _ _ ?_
  rcases he : mFirst emailRE (ct text) with _ | m1 <;>
    rcases hp : mFirst phoneRE (ct text) with _ | m2 <;>
      rcases ha : mFirst phoneAltRE (ct text) with _ | m3 <;>
        simp [he, hp, ha, initCI]

theorem extractBaseS_company_isSome (ct : Str → Str) (st : PatState) (text : Str) :
    (extractBaseS ct st text).1.company.isSome = true := by
  unfold extractBaseS
  dsimp only
  refine resolveNC_company_isSome _ _ _ ?_
  rcases he : mFirst emailRE (ct text) with _ | m1 <;>
    rcases hp : mFirst phoneRE (ct text) with _ | m2 <;>
      rcases ha : mFirst phoneAltRE (ct text) with _ | m3 <;>
        simp [he, hp, ha, initCI]

/-! ## Claim C10: inferred phone values are digit strings -/

theorem phoneRE_ok : REok isPhoneA phoneRE := by
  unfold phoneRE RE.seqs RE.eps
  simp only [List.foldr, REok]
  refine ⟨⟨?_, ?_, ?_, ?_⟩, ?_, ?_, ?_, ?_, ?_, ?_, ?_, ?_⟩ <;>
    first
      | (intro c h; unfold isPhoneA; simp [h]; done)
      | (intro c h; simp at h; subst h; decide)
      | (intro c h; simp at h)

theorem phoneAltRE_ok : REok isPhoneA phoneAltRE := by
  unfold phoneAltRE RE.seqs RE.eps
  simp only [List.foldr, REok]
  refine ⟨⟨?_, ?_, ?_, ?_⟩, ?_, ?_, ?_, ?_, ?_, ?_, ?_, ?_, ?_, ?_⟩ <;>
    first
      | (intro c h; unfold isPhoneA; simp [h]; done)
      | (intro c h; simp at h; subst h; decide)
      | (intro c h; simp at h)

theorem stripLead1_subset {s : Str} : ∀ c ∈ stripLead1 s, c ∈ s := by
  intro c hc
  unfold stripLead1 at hc
  split at hc
  · exact List.mem_cons_of_mem _ (List.mem_cons_of_mem _ hc)
  · exact List.mem_cons_of_mem _ hc
  · exact hc

/-- The character-level core: a character of a first phone-pattern match in
the output of `cleanText` that is not a separator is an ASCII digit. -/
theorem phoneMatch_digits {garb : Char → Bool}
    (hga : garb ' ' = false) (hgp : garb '+' = true)
    (hgl : garb '(' = true) (hgr : garb ')' = true)
    {text m : Str}
    (hm : mFirst phoneRE (cleanTextWith garb text) = some m ∨
          mFirst phoneAltRE (cleanTextWith garb text) = some m) :
    ∀ c ∈ m, isSepC c = false → isDigitC c = true := by
  intro c hc hsep
  have hch : isPhoneA c = true ∧ c ∈ cleanTextWith garb text := by
    rcases hm with h | h
    · exact mFirst_chars phoneRE_ok h c hc
    · exact mFirst_chars phoneAltRE_ok h c hc
  have hgarb : garb c = false := (cleanTextWith_chars hga (s := text) c hch.2).2.1
  have hA := hch.1
  unfold isPhoneA at hA
  simp only [Bool.or_eq_true, decide_eq_true_eq] at hA
  rcases hA with (((hd | hs) | h1) | h2) | h3
  · exact hd
  · rw [hs] at hsep; simp at hsep
  · rw [h1, hgp] at hgarb; simp at hgarb
  · rw [h2, hgl] at hgarb; simp at hgarb
  · rw [h3, hgr] at hgarb; simp at hgarb

theorem basePhone_digits {garb : Char → Bool}
    (hga : garb ' ' = false) (hgp : garb '+' = true)
    (hgl : garb '(' = true) (hgr : garb ')' = true)
    (st : PatState) (text : Str) :
    ∀ c ∈ stripSeps (((extractBaseS (cleanTextWith garb) st text).1.phone).getD []),
      isDigitC c = true := by
  intro c hc
  obtain ⟨hmem, hsep⟩ := List.mem_filter.mp hc
  have hph := extractBaseS_phone (cleanTextWith garb) st text
  rcases hmp : mFirst phoneRE (cleanTextWith garb text) with _ | m
  · rcases hma : mFirst phoneAltRE (cleanTextWith garb text) with _ | m
    · rw [hmp] at hph
      dsimp only at hph
      rw [hma] at hph
      dsimp only at hph
      rw [hph] at hmem
      simp at hmem
    · rw [hmp] at hph
      dsimp only at hph
      rw [hma] at hph
      dsimp only at hph
      rw [hph] at hmem
      simp only [Option.getD_some] at hmem
      exact phoneMatch_digits hga hgp hgl hgr (Or.inr hma) c
        (jsTrim_subset c hmem) (by simpa using hsep)
  · rw [hmp] at hph
    dsimp only at hph
    rw [hph] at hmem
    simp only [Option.getD_some] at hmem
    exact phoneMatch_digits hga hgp hgl hgr (Or.inl hmp) c
      (jsTrim_subset c hmem) (by simpa using hsep)

theorem OCR_cleanText_eq : OCRProcessor.cleanText = cleanTextWith webGarb := rfl

theorem CP_cleanText_eq : ContactParser.cleanText = cleanTextWith mobGarb := rfl

/-- The final phone value of the web copy: separators stripped from the
assigned match, then a leading `+1`/`1` removed. -/
theorem webPhone_formula (text : Str) :
    (OCRProcessor.extractContactInfo text).phone =
      some (stripLead1 (stripSeps
        (((extractBaseS (cleanTextWith webGarb) freshPS text).1.phone).getD []))) := by
  unfold OCRProcessor.extractContactInfo OCRProcessor.extractContactInfoS
  rw [OCR_cleanText_eq]
  by_cases hemp : text.isEmpty
  · rw [if_pos hemp]
    have : text = [] := by simpa [List.isEmpty_iff] using hemp
    subst this
    decide
  · rw [if_neg hemp]
    dsimp only
    unfold OCRProcessor.finalize
    dsimp only
    rcases hp : (extractBaseS (cleanTextWith webGarb) freshPS text).1.phone with _ | v
    · rfl
    · rcases v with _ | ⟨a, w⟩
      · rfl
      · rfl

/-- The final phone value of the mobile copy: separators stripped from the
assigned match, with no country-code removal. -/
theorem mobPhone_formula (text : Str) :
    (ContactParser.extractContactInfo text).phone =
      some (stripSeps
        (((extractBaseS (cleanTextWith mobGarb) freshPS text).1.phone).getD [])) := by
  unfold ContactParser.extractContactInfo ContactParser.extractContactInfoS
  rw [CP_cleanText_eq]
  by_cases hemp : text.isEmpty
  · rw [if_pos hemp]
    have : text = [] := by simpa [List.isEmpty_iff] using hemp
    subst this
    decide
  · rw [if_neg hemp]
    dsimp only
    unfold ContactParser.finalize
    dsimp only
    rcases hp : (extractBaseS (cleanTextWith mobGarb) freshPS text).1.phone with _ | v
    · rfl
    · rcases v with _ | ⟨a, w⟩
      · rfl
      · rfl

/-- C10: for every input string, the `phone` field of the record returned by
`extractContactInfo` consists only of ASCII digits (in both the web and the
mobile copy); in particular it never contains `+`. -/
theorem c10_phone_digits_only :
    (∀ text : Str, ∀ c ∈ ((OCRProcessor.extractContactInfo text).phone.getD []),
       isDigitC c = true) ∧
    (∀ text : Str, ∀ c ∈ ((ContactParser.extractContactInfo text).phone.getD []),
       isDigitC c = true) := by
  constructor
  · intro text c hc
    rw [webPhone_formula text] at hc
    simp only [Option.getD_some] at hc
    exact basePhone_digits (by decide) (by decide) (by decide) (by decide)
      freshPS text c (stripLead1_subset c hc)
  · intro text c hc
    rw [mobPhone_formula text] at hc
    simp only [Option.getD_some] at hc
    exact basePhone_digits (by decide) (by decide) (by decide) (by decide)
      freshPS text c hc

theorem c10_witness :
    ('4' ∈ ((OCRProcessor.extractContactInfo "415-555-2671".data).phone.getD [])) ∧
    isDigitC '4' = true :=
  ⟨by decide,
   c10_phone_digits_only.1 ("415-555-2671".data) '4' (by decide)⟩

/-! ## Claim C5: country-code stripping, web vs mobile -/

theorem basePhone_eq_raw (garb : Char → Bool) (st : PatState) (text : Str) :
    ((extractBaseS (cleanTextWith garb) st text).1.phone).getD []
      = jsTrim (rawPhoneMatch garb text) := by
  rw [extractBaseS_phone]
  unfold rawPhoneMatch
  rcases hmp : mFirst phoneRE (cleanTextWith garb text) with _ | m
  · rcases hma : mFirst phoneAltRE (cleanTextWith garb text) with _ | m <;> rfl
  · rfl

/-- C5 (counterexample to the claim as stated): on
`"Jane Doe\n+1 (415) 555-2671\nWidgets LLC"` it is the web copy that strips
the leading country code (`"4155552671"`), while the mobile copy keeps it
(`"14155552671"`) — the opposite of the claimed variant assignment. -/
theorem c5_counterexample :
    (ContactParser.extractContactInfo ("Jane Doe\n+1 (415) 555-2671\nWidgets LLC".data)).phone
      = some ("14155552671".data) ∧
    (OCRProcessor.extractContactInfo ("Jane Doe\n+1 (415) 555-2671\nWidgets LLC".data)).phone
      = some ("4155552671".data) :=
  ⟨by decide, by decide⟩

/-- C5 (amended): in both variants the phone value assigned from the first
phone-pattern match has all whitespace/hyphen/dot separators stripped, and in
the web variant only, a leading `+1` (after separator stripping, a leading
`1`) is additionally stripped; the mobile variant keeps the country code. -/
theorem c5_phone_strip_variants :
    ∀ text : Str,
      (OCRProcessor.extractContactInfo text).phone =
        some (stripLead1 (stripSeps (jsTrim (rawPhoneMatch webGarb text)))) ∧
      (ContactParser.extractContactInfo text).phone =
        some (stripSeps (jsTrim (rawPhoneMatch mobGarb text))) := by
  intro text
  constructor
  · rw [webPhone_formula text, basePhone_eq_raw]
  · rw [mobPhone_formula text, basePhone_eq_raw]

/-! ## Claim C6: record shape returned by infer and decode -/

/-- C6 (counterexample to the claim as stated): the record object built by
`extractContactInfo` has no `eventTag` property at all — the field is
`undefined`, not an empty string (shown here for both copies on a sample
input). -/
theorem c6_counterexample :
    (ContactParser.extractContactInfo ("x".data)).eventTag = none ∧
    (OCRProcessor.extractContactInfo ("x".data)).eventTag = none :=
  ⟨by decide, by decide⟩

theorem extract_eventTag_none_mob (text : Str) :
    (ContactParser.extractContactInfo text).eventTag = none := by
  unfold ContactParser.extractContactInfo ContactParser.extractContactInfoS
  rw [CP_cleanText_eq]
  by_cases hemp : text.isEmpty
  · rw [if_pos hemp]; rfl
  · rw [if_neg hemp]
    dsimp only
    unfold ContactParser.finalize
    dsimp only
    exact extractBaseS_eventTag (cleanTextWith mobGarb) freshPS text

theorem extract_fields_some_mob (text : Str) :
    (ContactParser.extractContactInfo text).name.isSome = true ∧
    (ContactParser.extractContactInfo text).phone.isSome = true ∧
    (ContactParser.extractContactInfo text).email.isSome = true ∧
    (ContactParser.extractContactInfo text).company.isSome = true := by
  unfold ContactParser.extractContactInfo ContactParser.extractContactInfoS
  by_cases hemp : text.isEmpty
  · rw [if_pos hemp]
    exact ⟨rfl, rfl, rfl, rfl⟩
  · rw [if_neg hemp]
    dsimp only
    unfold ContactParser.finalize
    dsimp only
    exact ⟨rfl, rfl, rfl, rfl⟩

theorem parseStep_allSome (c : Contact) (line : Str)
    (h : c.name.isSome = true ∧ c.phone.isSome = true ∧ c.email.isSome = true ∧
         c.company.isSome = true ∧ c.eventTag.isSome = true) :
    (VCardHandler.parseStep c line).name.isSome = true ∧
    (VCardHandler.parseStep c line).phone.isSome = true ∧
    (VCardHandler.parseStep c line).email.isSome = true ∧
    (VCardHandler.parseStep c line).company.isSome = true ∧
    (VCardHandler.parseStep c line).eventTag.isSome = true := by
  unfold VCardHandler.parseStep
  dsimp only
  obtain ⟨h1, h2, h3, h4, h5⟩ := h
  refine ⟨?_, ?_, ?_, ?_, ?_⟩ <;> (repeat' split) <;> simp_all

theorem foldl_parseStep_allSome (lines : List Str) :
    ∀ c : Contact,
      (c.name.isSome = true ∧ c.phone.isSome = true ∧ c.email.isSome = true ∧
       c.company.isSome = true ∧ c.eventTag.isSome = true) →
      ((lines.foldl VCardHandler.parseStep c).name.isSome = true ∧
       (lines.foldl VCardHandler.parseStep c).phone.isSome = true ∧
       (lines.foldl VCardHandler.parseStep c).email.isSome = true ∧
       (lines.foldl VCardHandler.parseStep c).company.isSome = true ∧
       (lines.foldl VCardHandler.parseStep c).eventTag.isSome = true) := by
  induction lines with
  | nil => intro c h; exact h
  | cons l ls ih =>
      intro c h
      exact ih (VCardHandler.parseStep c l) (parseStep_allSome c l h)

theorem parse_allSome (v : Str) :
    (VCardHandler.parse v).name.isSome = true ∧
    (VCardHandler.parse v).phone.isSome = true ∧
    (VCardHandler.parse v).email.isSome = true ∧
    (VCardHandler.parse v).company.isSome = true ∧
    (VCardHandler.parse v).eventTag.isSome = true := by
  unfold VCardHandler.parse
  by_cases he : v.isEmpty
  · rw [if_pos he]; exact ⟨rfl, rfl, rfl, rfl, rfl⟩
  · rw [if_neg he]
    exact foldl_parseStep_allSome (splitCRLFruns v) VCardHandler.initVC
      ⟨rfl, rfl, rfl, rfl, rfl⟩

/-- C6 (amended): every record returned by `VCardHandler.parse` has all five
fields present as strings; every record returned by the inference engine has
`name`, `phone`, `email` and `company` present as strings, but carries no
`eventTag` property at all. -/
theorem c6_field_presence :
    (∀ v : Str,
      (VCardHandler.parse v).name.isSome = true ∧
      (VCardHandler.parse v).phone.isSome = true ∧
      (VCardHandler.parse v).email.isSome = true ∧
      (VCardHandler.parse v).company.isSome = true ∧
      (VCardHandler.parse v).eventTag.isSome = true) ∧
    (∀ text : Str,
      (ContactParser.extractContactInfo text).name.isSome = true ∧
      (ContactParser.extractContactInfo text).phone.isSome = true ∧
      (ContactParser.extractContactInfo text).email.isSome = true ∧
      (ContactParser.extractContactInfo text).company.isSome = true ∧
      (ContactParser.extractContactInfo text).eventTag = none) :=
  ⟨parse_allSome, fun text =>
    ⟨(extract_fields_some_mob text).1, (extract_fields_some_mob text).2.1,
     (extract_fields_some_mob text).2.2.1, (extract_fields_some_mob text).2.2.2,
     extract_eventTag_none_mob text⟩⟩

/-! ## Decode line shapes (towards C7 and C1) -/

theorem jsTrim_cons_ne {a : Char} {l : Str} (ha : isJsWs a = false) :
    jsTrim (a :: l) ≠ [] := by
  unfold jsTrim
  rw [List.dropWhile_cons, ha]
  simp only [Bool.false_eq_true, if_false]
  intro hcontra
  unfold dropEndWhile at hcontra
  have h2 : List.dropWhile isJsWs (a :: l).reverse = [] := by
    have := congrArg List.reverse hcontra
    simpa using this
  rw [List.dropWhile_eq_nil_iff] at h2
  have := h2 a (by simp)
  rw [ha] at this
  simp at this

theorem takeWhile_app_stop {p : Char → Bool} {m : Char} (hm : p m = false) :
    ∀ (f v : Str), (∀ c ∈ f, p c = true) → (f ++ m :: v).takeWhile p = f
  | [], v, _ => by simp [List.takeWhile_cons, hm]
  | c :: f, v, h => by
      rw [List.cons_append, List.takeWhile_cons, h c (by simp)]
      simp only [if_true]
      rw [takeWhile_app_stop hm f v (fun d hd => h d (List.mem_cons_of_mem _ hd))]

theorem lineMatch_lit (f v : Str) (hf0 : f ≠ []) (hfc : ∀ ch ∈ f, ch ≠ ':')
    (hv0 : v ≠ []) (hvd : v.all VCardHandler.isDotC = true) :
    VCardHandler.lineMatch (f ++ ':' :: v) = some (f, v) := by
  unfold VCardHandler.lineMatch
  have ht : (f ++ ':' :: v).takeWhile (fun c => c ≠ ':') = f := by
    refine takeWhile_app_stop (by simp) f v ?_
    intro c hc
    simpa using hfc c hc
  rw [ht]
  dsimp only
  have hd : (f ++ ':' :: v).drop f.length = ':' :: v := List.drop_left f (':' :: v)
  rw [hd]
  dsimp only
  rw [if_pos rfl,
    if_neg (by simpa [List.isEmpty_iff] using hf0),
    if_neg (by simpa [List.isEmpty_iff] using hv0),
    if_pos hvd]

theorem parseStep_FN (c : Contact) (v : Str) (hv0 : v ≠ [])
    (hvd : v.all VCardHandler.isDotC = true) :
    VCardHandler.parseStep c (['F', 'N'] ++ ':' :: v) =
      { c with name := some (VCardHandler.unescape v) } := by
  unfold VCardHandler.parseStep
  have hskip : (jsTrim (['F', 'N'] ++ ':' :: v)).isEmpty = false := by
    have := jsTrim_cons_ne (a := 'F') (l := ['N'] ++ ':' :: v) (by decide)
    simpa [List.isEmpty_iff] using this
  have hB : startsWithStr ("BEGIN".data) (['F', 'N'] ++ ':' :: v) = false := by
    simp [startsWithStr, List.isPrefixOf]
  have hE : startsWithStr ("END".data) (['F', 'N'] ++ ':' :: v) = false := by
    simp [startsWithStr, List.isPrefixOf]
  rw [hskip, hB, hE]
  simp only [Bool.or_false, Bool.false_eq_true, if_false]
  rw [lineMatch_lit ['F', 'N'] v (by decide) (by decide) hv0 hvd]
  dsimp only
  simp +decide [splitSemi, splitSemi.go, toUpperA, upChar]

theorem parseStep_N (c : Contact) (v : Str) (hv0 : v ≠ [])
    (hvd : v.all VCardHandler.isDotC = true) :
    VCardHandler.parseStep c (['N'] ++ ':' :: v) =
      (if 2 ≤ (splitSemi v).length then
        { c with name := some (jsTrim
            (VCardHandler.unescape ((splitSemi v).getD 1 []) ++
              ' ' :: VCardHandler.unescape ((splitSemi v).getD 0 []))) }
      else if !((splitSemi v).getD 0 []).isEmpty then
        { c with name := some (VCardHandler.unescape ((splitSemi v).getD 0 [])) }
      else c) := by
  unfold VCardHandler.parseStep
  have hskip : (jsTrim (['N'] ++ ':' :: v)).isEmpty = false := by
    have := jsTrim_cons_ne (a := 'N') (l := ':' :: v) (by decide)
    simpa [List.isEmpty_iff] using this
  have hB : startsWithStr ("BEGIN".data) (['N'] ++ ':' :: v) = false := by
    simp [startsWithStr, List.isPrefixOf]
  have hE : startsWithStr ("END".data) (['N'] ++ ':' :: v) = false := by
    simp [startsWithStr, List.isPrefixOf]
  rw [hskip, hB, hE]
  simp only [Bool.or_false, Bool.false_eq_true, if_false]
  rw [lineMatch_lit ['N'] v (by decide) (by decide) hv0 hvd]
  dsimp only
  simp +decide [splitSemi, toUpperA, upChar, List.getD]

theorem parseStep_TEL (c : Contact) (v : Str) (hv0 : v ≠ [])
    (hvd : v.all VCardHandler.isDotC = true) :
    VCardHandler.parseStep c (['T', 'E', 'L'] ++ ':' :: v) =
      if truthy c.phone then c
      else { c with phone := some (VCardHandler.unescape v) } := by
  unfold VCardHandler.parseStep
  have hskip : (jsTrim (['T', 'E', 'L'] ++ ':' :: v)).isEmpty = false := by
    have := jsTrim_cons_ne (a := 'T') (l := ['E', 'L'] ++ ':' :: v) (by decide)
    simpa [List.isEmpty_iff] using this
  have hB : startsWithStr ("BEGIN".data) (['T', 'E', 'L'] ++ ':' :: v) = false := by
    simp [startsWithStr, List.isPrefixOf]
  have hE : startsWithStr ("END".data) (['T', 'E', 'L'] ++ ':' :: v) = false := by
    simp [startsWithStr, List.isPrefixOf]
  rw [hskip, hB, hE]
  simp only [Bool.or_false, Bool.false_eq_true, if_false]
  rw [lineMatch_lit ['T', 'E', 'L'] v (by decide) (by decide) hv0 hvd]
  dsimp only
  simp +decide [splitSemi, splitSemi.go, toUpperA, upChar]

theorem parseStep_TELfull (c : Contact) (v : Str) (hv0 : v ≠ [])
    (hvd : v.all VCardHandler.isDotC = true) :
    VCardHandler.parseStep c ("TEL;TYPE=CELL".data ++ ':' :: v) =
      if truthy c.phone then c
      else { c with phone := some (VCardHandler.unescape v) } := by
  unfold VCardHandler.parseStep
  have hskip : (jsTrim ("TEL;TYPE=CELL".data ++ ':' :: v)).isEmpty = false := by
    have := jsTrim_cons_ne (a := 'T') (l := "EL;TYPE=CELL".data ++ ':' :: v) (by decide)
    simpa [List.isEmpty_iff] using this
  have hB : startsWithStr ("BEGIN".data) ("TEL;TYPE=CELL".data ++ ':' :: v) = false := by
    simp [startsWithStr, List.isPrefixOf]
  have hE : startsWithStr ("END".data) ("TEL;TYPE=CELL".data ++ ':' :: v) = false := by
    simp [startsWithStr, List.isPrefixOf]
  rw [hskip, hB, hE]
  simp only [Bool.or_false, Bool.false_eq_true, if_false]
  rw [lineMatch_lit ("TEL;TYPE=CELL".data) v (by decide) (by decide) hv0 hvd]
  dsimp only
  simp +decide [splitSemi, splitSemi.go, toUpperA, upChar]

theorem parseStep_EMAIL (c : Contact) (v : Str) (hv0 : v ≠ [])
    (hvd : v.all VCardHandler.isDotC = true) :
    VCardHandler.parseStep c (['E', 'M', 'A', 'I', 'L'] ++ ':' :: v) =
      if truthy c.email then c
      else { c with email := some (VCardHandler.unescape v) } := by
  unfold VCardHandler.parseStep
  have hskip : (jsTrim (['E', 'M', 'A', 'I', 'L'] ++ ':' :: v)).isEmpty = false := by
    have := jsTrim_cons_ne (a := 'E') (l := ['M', 'A', 'I', 'L'] ++ ':' :: v) (by decide)
    simpa [List.isEmpty_iff] using this
  have hB : startsWithStr ("BEGIN".data) (['E', 'M', 'A', 'I', 'L'] ++ ':' :: v) = false := by
    simp [startsWithStr, List.isPrefixOf]
  have hE : startsWithStr ("END".data) (['E', 'M', 'A', 'I', 'L'] ++ ':' :: v) = false := by
    simp [startsWithStr, List.isPrefixOf]
  rw [hskip, hB, hE]
  simp only [Bool.or_false, Bool.false_eq_true, if_false]
  rw [lineMatch_lit ['E', 'M', 'A', 'I', 'L'] v (by decide) (by decide) hv0 hvd]
  dsimp only
  simp +decide [splitSemi, splitSemi.go, toUpperA, upChar]

theorem parseStep_EMAILfull (c : Contact) (v : Str) (hv0 : v ≠ [])
    (hvd : v.all VCardHandler.isDotC = true) :
    VCardHandler.parseStep c ("EMAIL;TYPE=INTERNET".data ++ ':' :: v) =
      if truthy c.email then c
      else { c with email := some (VCardHandler.unescape v) } := by
  unfold VCardHandler.parseStep
  have hskip : (jsTrim ("EMAIL;TYPE=INTERNET".data ++ ':' :: v)).isEmpty = false := by
    have := jsTrim_cons_ne (a := 'E') (l := "MAIL;TYPE=INTERNET".data ++ ':' :: v) (by decide)
    simpa [List.isEmpty_iff] using this
  have hB : startsWithStr ("BEGIN".data) ("EMAIL;TYPE=INTERNET".data ++ ':' :: v) = false := by
    simp [startsWithStr, List.isPrefixOf]
  have hE : startsWithStr ("END".data) ("EMAIL;TYPE=INTERNET".data ++ ':' :: v) = false := by
    simp [startsWithStr, List.isPrefixOf]
  rw [hskip, hB, hE]
  simp only [Bool.or_false, Bool.false_eq_true, if_false]
  rw [lineMatch_lit ("EMAIL;TYPE=INTERNET".data) v (by decide) (by decide) hv0 hvd]
  dsimp only
  simp +decide [splitSemi, splitSemi.go, toUpperA, upChar]

theorem parseStep_ORG (c : Contact) (v : Str) (hv0 : v ≠ [])
    (hvd : v.all VCardHandler.isDotC = true) :
    VCardHandler.parseStep c (['O', 'R', 'G'] ++ ':' :: v) =
      { c with company := some (VCardHandler.unescape v) } := by
  unfold VCardHandler.parseStep
  have hskip : (jsTrim (['O', 'R', 'G'] ++ ':' :: v)).isEmpty = false := by
    have := jsTrim_cons_ne (a := 'O') (l := ['R', 'G'] ++ ':' :: v) (by decide)
    simpa [List.isEmpty_iff] using this
  have hB : startsWithStr ("BEGIN".data) (['O', 'R', 'G'] ++ ':' :: v) = false := by
    simp [startsWithStr, List.isPrefixOf]
  have hE : startsWithStr ("END".data) (['O', 'R', 'G'] ++ ':' :: v) = false := by
    simp [startsWithStr, List.isPrefixOf]
  rw [hskip, hB, hE]
  simp only [Bool.or_false, Bool.false_eq_true, if_false]
  rw [lineMatch_lit ['O', 'R', 'G'] v (by decide) (by decide) hv0 hvd]
  dsimp only
  simp +decide [splitSemi, splitSemi.go, toUpperA, upChar]

theorem parseStep_XTAG (c : Contact) (v : Str) (hv0 : v ≠ [])
    (hvd : v.all VCardHandler.isDotC = true) :
    VCardHandler.parseStep c ("X-EVENT-TAG".data ++ ':' :: v) =
      { c with eventTag := some (VCardHandler.unescape v) } := by
  unfold VCardHandler.parseStep
  have hskip : (jsTrim ("X-EVENT-TAG".data ++ ':' :: v)).isEmpty = false := by
    have := jsTrim_cons_ne (a := 'X') (l := "-EVENT-TAG".data ++ ':' :: v) (by decide)
    simpa [List.isEmpty_iff] using this
  have hB : startsWithStr ("BEGIN".data) ("X-EVENT-TAG".data ++ ':' :: v) = false := by
    simp [startsWithStr, List.isPrefixOf]
  have hE : startsWithStr ("END".data) ("X-EVENT-TAG".data ++ ':' :: v) = false := by
    simp [startsWithStr, List.isPrefixOf]
  rw [hskip, hB, hE]
  simp only [Bool.or_false, Bool.false_eq_true, if_false]
  rw [lineMatch_lit ("X-EVENT-TAG".data) v (by decide) (by decide) hv0 hvd]
  dsimp only
  simp +decide [splitSemi, splitSemi.go, toUpperA, upChar]

theorem parseStep_skipBEGIN (c : Contact) :
    VCardHandler.parseStep c ("BEGIN:VCARD".data) = c := by
  unfold VCardHandler.parseStep
  rw [if_pos (by decide)]

theorem parseStep_skipEND (c : Contact) :
    VCardHandler.parseStep c ("END:VCARD".data) = c := by
  unfold VCardHandler.parseStep
  rw [if_pos (by decide)]

theorem parseStep_VERSION (c : Contact) :
    VCardHandler.parseStep c ("VERSION:3.0".data) = c := by
  unfold VCardHandler.parseStep
  rw [if_neg (by decide)]
  rw [show VCardHandler.lineMatch ("VERSION:3.0".data)
      = some ("VERSION".data, "3.0".data) from by decide]
  dsimp only
  simp +decide [splitSemi, splitSemi.go, toUpperA, upChar]

theorem splitSemi_go_len (s cur : Str) : 1 ≤ (splitSemi.go cur s).length := by
  induction s generalizing cur with
  | nil => simp [splitSemi.go]
  | cons c rest ih =>
      rw [splitSemi.go]
      by_cases hc : c = ';'
      · simp [hc]
      · simp only [hc, Bool.false_eq_true, if_false]
        exact ih (c :: cur)

theorem splitSemi_noSemi (s : Str) (h : ∀ c ∈ s, c ≠ ';') : splitSemi s = [s] := by
  unfold splitSemi
  suffices hgen : ∀ (s cur : Str), (∀ c ∈ s, c ≠ ';') →
      splitSemi.go cur s = [cur.reverse ++ s] by
    simpa using hgen s [] h
  intro s
  induction s with
  | nil => intro cur _; simp [splitSemi.go]
  | cons c rest ih =>
      intro cur hc
      rw [splitSemi.go]
      have : ¬(c = ';') := hc c (by simp)
      simp only [this, Bool.false_eq_true, if_false]
      rw [ih (c :: cur) (fun d hd => hc d (List.mem_cons_of_mem _ hd))]
      simp

theorem splitSemi_hasSemi (s : Str) (h : ';' ∈ s) : 2 ≤ (splitSemi s).length := by
  unfold splitSemi
  suffices hgen : ∀ (s cur : Str), ';' ∈ s → 2 ≤ (splitSemi.go cur s).length by
    exact hgen s [] h
  intro s
  induction s with
  | nil => intro cur hmem; simp at hmem
  | cons c rest ih =>
      intro cur hmem
      rw [splitSemi.go]
      by_cases hc : c = ';'
      · simp only [hc, if_true]
        have := splitSemi_go_len rest []
        simp only [List.length_cons]
        omega
      · simp only [hc, Bool.false_eq_true, if_false]
        have hr : ';' ∈ rest := by
          rcases List.mem_cons.mp hmem with h1 | h1
          · exact absurd h1.symm hc
          · exact h1
        exact ih (c :: cur) hr

/-- C7: in the decode loop, a `TEL` line assigns the phone only when it is
currently empty (first `TEL` wins) and an `EMAIL` line likewise; `FN`, `ORG`
and `X-EVENT-TAG` lines overwrite unconditionally, and the name produced by
an `N` line does not depend on the previously assigned name — so a later
`N` line replaces a name set by an earlier `FN` line. -/
theorem c7_decode_precedence (c c' : Contact) (v : Str) (hv0 : v ≠ [])
    (hvd : v.all VCardHandler.isDotC = true) :
    ((VCardHandler.parseStep c (['T', 'E', 'L'] ++ ':' :: v)).phone
       = (if truthy c.phone then c.phone else some (VCardHandler.unescape v))) ∧
    ((VCardHandler.parseStep c (['E', 'M', 'A', 'I', 'L'] ++ ':' :: v)).email
       = (if truthy c.email then c.email else some (VCardHandler.unescape v))) ∧
    ((VCardHandler.parseStep c (['F', 'N'] ++ ':' :: v)).name
       = some (VCardHandler.unescape v)) ∧
    ((VCardHandler.parseStep c (['N'] ++ ':' :: v)).name
       = (VCardHandler.parseStep c' (['N'] ++ ':' :: v)).name) ∧
    ((VCardHandler.parseStep c (['O', 'R', 'G'] ++ ':' :: v)).company
       = some (VCardHandler.unescape v)) ∧
    ((VCardHandler.parseStep c ("X-EVENT-TAG".data ++ ':' :: v)).eventTag
       = some (VCardHandler.unescape v)) := by
  refine ⟨?_, ?_, ?_, ?_, ?_, ?_⟩
  · rw [parseStep_TEL c v hv0 hvd]
    by_cases h : truthy c.phone <;> simp [h]
  · rw [parseStep_EMAIL c v hv0 hvd]
    by_cases h : truthy c.email <;> simp [h]
  · rw [parseStep_FN c v hv0 hvd]
  · rw [parseStep_N c v hv0 hvd, parseStep_N c' v hv0 hvd]
    by_cases h2 : 2 ≤ (splitSemi v).length
    · simp [h2]
    · have hns : splitSemi v = [v] := by
        by_cases hsm : ';' ∈ v
        · exact absurd (splitSemi_hasSemi v hsm) h2
        · exact splitSemi_noSemi v (fun d hd heq => hsm (heq ▸ hd))
      simp [h2, hns, List.isEmpty_iff, hv0]
  · rw [parseStep_ORG c v hv0 hvd]
  · rw [parseStep_XTAG c v hv0 hvd]

theorem c7_witness :
    (VCardHandler.parseStep c7ex (['T', 'E', 'L'] ++ ':' :: ['1'])).phone
      = (if truthy c7ex.phone then c7ex.phone
         else some (VCardHandler.unescape ['1'])) :=
  (c7_decode_precedence c7ex c7ex ['1'] (by decide) (by decide)).1

/-! ## C8: escape/unescape round trip -/

theorem rAll2_match (a b : Char) (rep rest : Str) :
    rAll2 a b rep (a :: b :: rest) = rep ++ rAll2 a b rep rest := by
  simp [rAll2]

theorem rAll2_cons₂ (a b c d : Char) (rep rest : Str)
    (h : ¬(c = a ∧ d = b)) :
    rAll2 a b rep (c :: d :: rest) = c :: rAll2 a b rep (d :: rest) := by
  rw [rAll2]
  have : (c = a && d = b) = false := by
    by_cases h1 : c = a <;> by_cases h2 : d = b <;> simp [h1, h2] <;> exact h ⟨h1, h2⟩
  rw [this]
  simp

theorem rAll2_cons_ne (a b c : Char) (rep rest : Str) (h : c ≠ a) :
    rAll2 a b rep (c :: rest) = c :: rAll2 a b rep rest := by
  cases rest with
  | nil => simp [rAll2]
  | cons d r =>
      refine rAll2_cons₂ a b c d rep r ?_
      intro hcd
      exact h hcd.1

theorem rAll2_id_noA (a b : Char) (rep : Str) (s : Str)
    (h : ∀ c ∈ s, c ≠ a) : rAll2 a b rep s = s := by
  induction s with
  | nil => rfl
  | cons c rest ih =>
      rw [rAll2_cons_ne a b c rep rest (h c (by simp))]
      rw [ih (fun d hd => h d (List.mem_cons_of_mem _ hd))]

theorem replChar_cons (c : Char) (rep : Str) (x : Char) (t : Str) :
    replChar c rep (x :: t) = (if x = c then rep else [x]) ++ replChar c rep t := by
  simp [replChar]

theorem escape_flat (s : Str) (h : ∀ c ∈ s, c ≠ '\\' ∧ c ≠ '\r') :
    VCardHandler.escape s = s.flatMap escChunk := by
  induction s with
  | nil => rfl
  | cons x t ih =>
      have hx := h x (by simp)
      have ht : ∀ c ∈ t, c ≠ '\\' ∧ c ≠ '\r' :=
        fun d hd => h d (List.mem_cons_of_mem _ hd)
      have hflat : ∀ (c : Char) (rep : Str) (u v : Str),
          replChar c rep (u ++ v) = replChar c rep u ++ replChar c rep v := by
        intro c rep u v; simp [replChar]
      unfold VCardHandler.escape at ih ⊢
      rw [replChar_cons '\\' _ x t, if_neg hx.1]
      by_cases h1 : x = ';'
      · subst h1
        rw [List.singleton_append, replChar_cons ';' _ ';', if_pos rfl]
        rw [hflat ',', hflat '\n', hflat '\r', ih ht]
        simp [escChunk, replChar]
      · by_cases h2 : x = ','
        · subst h2
          rw [List.singleton_append, replChar_cons ';' _ ',', if_neg (by decide)]
          rw [List.singleton_append, replChar_cons ',' _ ',', if_pos rfl]
          rw [hflat '\n', hflat '\r', ih ht]
          simp [escChunk, replChar]
        · by_cases h3 : x = '\n'
          · subst h3
            rw [List.singleton_append, replChar_cons ';' _ '\n', if_neg (by decide)]
            rw [List.singleton_append, replChar_cons ',' _ '\n', if_neg (by decide)]
            rw [List.singleton_append, replChar_cons '\n' _ '\n', if_pos rfl]
            rw [hflat '\r', ih ht]
            simp [escChunk, replChar]
          · rw [List.singleton_append, replChar_cons ';' _ x, if_neg h1]
            rw [List.singleton_append, replChar_cons ',' _ x, if_neg h2]
            rw [List.singleton_append, replChar_cons '\n' _ x, if_neg h3]
            rw [List.singleton_append, replChar_cons '\r' _ x, if_neg hx.2]
            rw [List.singleton_append, ih ht]
            simp [escChunk, h1, h2, h3]

theorem unescape_stage1 (s : Str) (h : ∀ c ∈ s, c ≠ '\\') :
    rAll2 '\\' 'n' ['\n'] (s.flatMap escChunk) = s.flatMap chunk1 := by
  induction s with
  | nil => rfl
  | cons x t ih =>
      have hx := h x (by simp)
      have ht : ∀ c ∈ t, c ≠ '\\' := fun d hd => h d (List.mem_cons_of_mem _ hd)
      rw [List.flatMap_cons, List.flatMap_cons]
      by_cases h1 : x = ';'
      · subst h1
        rw [show escChunk ';' = ['\\', ';'] from rfl, List.cons_append,
            List.cons_append, List.nil_append]
        rw [rAll2_cons₂ '\\' 'n' '\\' ';' _ _ (by simp)]
        rw [rAll2_cons_ne '\\' 'n' ';' _ _ (by decide), ih ht]
        rfl
      · by_cases h2 : x = ','
        · subst h2
          rw [show escChunk ',' = ['\\', ','] from rfl, List.cons_append,
              List.cons_append, List.nil_append]
          rw [rAll2_cons₂ '\\' 'n' '\\' ',' _ _ (by simp)]
          rw [rAll2_cons_ne '\\' 'n' ',' _ _ (by decide), ih ht]
          rfl
        · by_cases h3 : x = '\n'
          · subst h3
            rw [show escChunk '\n' = ['\\', 'n'] from rfl, List.cons_append,
                List.cons_append, List.nil_append]
            rw [rAll2_match, ih ht]
            rfl
          · rw [show escChunk x = [x] by simp [escChunk, h1, h2, h3],
                List.singleton_append]
            rw [rAll2_cons_ne '\\' 'n' x _ _ hx, ih ht]
            rw [show chunk1 x = [x] by simp [chunk1, h1, h2], List.singleton_append]

theorem unescape_stage2 (s : Str) (h : ∀ c ∈ s, c ≠ '\\') :
    rAll2 '\\' ',' [','] (s.flatMap chunk1) = s.flatMap chunk2 := by
  induction s with
  | nil => rfl
  | cons x t ih =>
      have hx := h x (by simp)
      have ht : ∀ c ∈ t, c ≠ '\\' := fun d hd => h d (List.mem_cons_of_mem _ hd)
      rw [List.flatMap_cons, List.flatMap_cons]
      by_cases h1 : x = ';'
      · subst h1
        rw [show chunk1 ';' = ['\\', ';'] from rfl, List.cons_append,
            List.cons_append, List.nil_append]
        rw [rAll2_cons₂ '\\' ',' '\\' ';' _ _ (by simp)]
        rw [rAll2_cons_ne '\\' ',' ';' _ _ (by decide), ih ht]
        rfl
      · by_cases h2 : x = ','
        · subst h2
          rw [show chunk1 ',' = ['\\', ','] from rfl, List.cons_append,
              List.cons_append, List.nil_append]
          rw [rAll2_match, ih ht]
          rfl
        · rw [show chunk1 x = [x] by simp [chunk1, h1, h2], List.singleton_append]
          rw [rAll2_cons_ne '\\' ',' x _ _ hx, ih ht]
          rw [show chunk2 x = [x] by simp [chunk2, h1], List.singleton_append]

theorem unescape_stage3 (s : Str) (h : ∀ c ∈ s, c ≠ '\\') :
    rAll2 '\\' ';' [';'] (s.flatMap chunk2) = s := by
  induction s with
  | nil => rfl
  | cons x t ih =>
      have hx := h x (by simp)
      have ht : ∀ c ∈ t, c ≠ '\\' := fun d hd => h d (List.mem_cons_of_mem _ hd)
      rw [List.flatMap_cons]
      by_cases h1 : x = ';'
      · subst h1
        rw [show chunk2 ';' = ['\\', ';'] from rfl, List.cons_append,
            List.cons_append, List.nil_append]
        rw [rAll2_match, ih ht]
        rfl
      · rw [show chunk2 x = [x] by simp [chunk2, h1], List.singleton_append]
        rw [rAll2_cons_ne '\\' ';' x _ _ hx, ih ht]

/-- C8 (counterexample): the escaping order of the source does not realise the
inverse the spec claims.  The carriage-return-free two-character string
backslash-then-letter-n escapes to three characters which unescape back to
backslash-then-newline, not to the original string: the literal backslash
before an `n` IS misread as a newline.  (Amended by
`c8_roundtrip_no_backslash`: the round trip holds exactly on inputs free of
backslash and carriage return.) -/
theorem c8_counterexample :
    ('\r' ∉ (['\\', 'n'] : Str)) ∧
    VCardHandler.escape ['\\', 'n'] = ['\\', '\\', 'n'] ∧
    VCardHandler.unescape (VCardHandler.escape ['\\', 'n']) = ['\\', '\n'] ∧
    ['\\', '\n'] ≠ ['\\', 'n'] := by decide

/-- C8 (amended): unescape applied after escape is the identity on every
string containing no backslash and no carriage return; excluding carriage
returns alone, as the claim states, is not sufficient
(`c8_counterexample`). -/
theorem c8_roundtrip_no_backslash (s : Str)
    (h : ∀ c ∈ s, c ≠ '\\' ∧ c ≠ '\r') :
    VCardHandler.unescape (VCardHandler.escape s) = s := by
  rw [escape_flat s h]
  unfold VCardHandler.unescape
  have hnb : ∀ c ∈ s, c ≠ '\\' := fun c hc => (h c hc).1
  rw [unescape_stage1 s hnb, unescape_stage2 s hnb, unescape_stage3 s hnb]
  exact rAll2_id_noA '\\' '\\' ['\\'] s hnb

theorem c8_witness :
    ("a, b; c\nd".data.all (fun c => !(c = '\\' || c = '\r')) = true) ∧
    VCardHandler.unescape (VCardHandler.escape "a, b; c\nd".data)
      = "a, b; c\nd".data :=
  ⟨by decide, c8_roundtrip_no_backslash ("a, b; c\nd".data) (by decide)⟩

/-- C3 (code bug): `infer` is NOT stateless on an engine instance.  The
`patterns` regexes carry the `/g` flag, and `classifyLine` probes them with
`RegExp.test`, which advances the shared `lastIndex` of the instance-level
pattern objects.  Starting from a fresh engine, two successive calls of
`extractContactInfo` on the very same input return different records: the
first call leaves `phoneAlt.lastIndex` past the alternative phone line, so
the second call no longer classifies that line as a phone and instead
assigns it to `company`. -/
theorem c3_infer_stateful :
    (let s := "123-456-7890\n12-34-56 Solutions".data
     let r1 := OCRProcessor.extractContactInfoS freshPS s
     let r2 := OCRProcessor.extractContactInfoS r1.2 s
     r1.1 ≠ r2.1 ∧
     r1.1.company = some [] ∧
     r2.1.company = some "12-34-56 Solutions".data) := by decide

theorem exc_bind_ok {α β : Type} (a : α) (f : α → Except Unit β) :
    (Except.ok a >>= f) = f a := rfl

theorem exc_pure_bind {α β : Type} (a : α) (f : α → Except Unit β) :
    ((pure a : Except Unit α) >>= f) = f a := rfl

theorem exc_ite_bind {α β : Type} (P : Prop) [Decidable P] (a b : Except Unit α)
    (f : α → Except Unit β) :
    ((if P then a else b) >>= f) = if P then a >>= f else b >>= f := by
  split <;> rfl

theorem companyNC_ok (ct : Str → Str) (cls : List Cls) (c : Contact) :
    (do
      let companyLines := cls.filter (fun cl =>
        (cl.type = .company && 8 ≤ cl.confidence) || (cl.type = .title && 7 ≤ cl.confidence))
      let c ← if 0 < companyLines.length then do
          let companyLine ← jsVal
            (match companyLines.find? (fun cl => cl.type = .company) with
             | some x => some x
             | none => companyLines.head?)
          pure { c with company := some (ct companyLine.original) }
        else
          let rem := cls.filter (fun cl => cl.type = .nameOrCompany &&
            jsStrNe cl.original c.name && 6 ≤ cl.confidence)
          if 0 < rem.length then do
            let cl ← jsVal rem.head?
            pure { c with company := some (ct cl.original) }
          else pure c
      if jsFalsyOrBlank c.company then
        match cls.find? (fun cl => cl.type = .title ||
            (cl.type = .company && 7 ≤ cl.confidence)) with
        | some tl => pure { c with company := some (ct tl.original) }
        | none => pure c
      else pure c
    : Except Unit Contact)
    = .ok (
      let companyLines := cls.filter (fun cl =>
        (cl.type = .company && 8 ≤ cl.confidence) || (cl.type = .title && 7 ≤ cl.confidence))
      let c := match companyLines with
        | cl0 :: _ =>
            let companyLine := match companyLines.find? (fun cl => cl.type = .company) with
              | some x => x
              | none => cl0
            { c with company := some (ct companyLine.original) }
        | [] =>
            match cls.filter (fun cl => cl.type = .nameOrCompany &&
                jsStrNe cl.original c.name && 6 ≤ cl.confidence) with
            | cl :: _ => { c with company := some (ct cl.original) }
            | [] => c
      if jsFalsyOrBlank c.company then
        match cls.find? (fun cl => cl.type = .title ||
            (cl.type = .company && 7 ≤ cl.confidence)) with
        | some tl => { c with company := some (ct tl.original) }
        | none => c
      else c) := by
  have hfin : ∀ (c : Contact),
      (if jsFalsyOrBlank c.company then
        match cls.find? (fun cl => cl.type = .title ||
            (cl.type = .company && 7 ≤ cl.confidence)) with
        | some tl => (pure { c with company := some (ct tl.original) } : Except Unit Contact)
        | none => pure c
      else pure c)
      = .ok (if jsFalsyOrBlank c.company then
        match cls.find? (fun cl => cl.type = .title ||
            (cl.type = .company && 7 ≤ cl.confidence)) with
        | some tl => { c with company := some (ct tl.original) }
        | none => c
      else c) := by
    intro c
    by_cases hb : jsFalsyOrBlank c.company = true
    · rw [if_pos hb, if_pos hb]
      cases cls.find? (fun cl => cl.type = .title ||
          (cl.type = .company && 7 ≤ cl.confidence)) <;> rfl
    · rw [if_neg hb, if_neg hb]
      rfl
  dsimp only
  cases hc : cls.filter (fun cl =>
      (cl.type = LType.company && 8 ≤ cl.confidence) ||
      (cl.type = LType.title && 7 ≤ cl.confidence)) with
  | cons cl0 cls0 =>
      cases hf : (cl0 :: cls0).find? (fun cl => cl.type = LType.company) with
      | some x =>
          simp only [List.length_cons, Nat.zero_lt_succ, if_true, hf, jsVal,
            exc_bind_ok, exc_pure_bind]
          exact hfin { c with company := some (ct x.original) }
      | none =>
          simp only [List.length_cons, Nat.zero_lt_succ, if_true, hf,
            List.head?_cons, jsVal, exc_bind_ok, exc_pure_bind]
          exact hfin { c with company := some (ct cl0.original) }
  | nil =>
      cases hr : cls.filter (fun cl => cl.type = LType.nameOrCompany &&
          jsStrNe cl.original c.name && 6 ≤ cl.confidence) with
      | cons r rs =>
          simp only [List.length_nil, Nat.lt_irrefl, if_false, List.length_cons,
            Nat.zero_lt_succ, if_true, List.head?_cons, jsVal,
            exc_bind_ok, exc_pure_bind]
          exact hfin { c with company := some (ct r.original) }
      | nil =>
          simp only [List.length_nil, Nat.lt_irrefl, if_false, exc_pure_bind]
          exact hfin c

theorem resolveNCE_ok (ct : Str → Str) (cls : List Cls) (c : Contact) :
    resolveNCE ct cls c = .ok (resolveNC ct cls c) := by
  unfold resolveNCE resolveNC
  dsimp only
  cases hn : cls.filter (fun cl => cl.type = LType.name && 9 ≤ cl.confidence) with
  | cons nl nls =>
      simp only [List.length_cons, Nat.zero_lt_succ, if_true, List.head?_cons,
        jsVal, exc_bind_ok, exc_pure_bind]
      exact companyNC_ok ct cls { c with name := some (ct nl.original) }
  | nil =>
      cases hn2 : cls.filter (fun cl => cl.type = LType.nameOrCompany && 6 ≤ cl.confidence) with
      | cons ml mls =>
          simp only [List.length_nil, Nat.lt_irrefl, if_false, List.length_cons,
            Nat.zero_lt_succ, if_true, List.head?_cons, jsVal,
            exc_bind_ok, exc_pure_bind]
          exact companyNC_ok ct cls { c with name := some (ct ml.original) }
      | nil =>
          simp only [List.length_nil, Nat.lt_irrefl, if_false, exc_pure_bind]
          exact companyNC_ok ct cls c

theorem classifyTail_ok (ct : Str → Str) (st : PatState) (c : Contact) (lines : List Str) :
    (do
      let cst := classifyAll st lines
      let c ← resolveNCE ct cst.1 c
      pure (c, cst.2) : Except Unit (Contact × PatState))
    = .ok (let cst := classifyAll st lines
           (resolveNC ct cst.1 c, cst.2)) := by
  dsimp only
  rw [resolveNCE_ok, exc_bind_ok]
  rfl

theorem afterPhone_ok (ct : Str → Str) (st : PatState) (c : Contact) (text : Str) :
    (do
      let lines0 := ((splitRN (ct text)).map (fun l => ct (jsTrim l))).filter
        (fun l => 0 < l.length)
      let lines ← if lines0.length = 1 then do
          let l0 ← jsVal lines0.head?
          if 50 < l0.length then
            let emailPos := searchIdx emailRE l0
            let phonePos := match searchIdx phoneRE l0 with
              | some p => some p
              | none => searchIdx plusDigRE l0
            let websitePos := match searchIdx urlRE l0 with
              | some p => some p
              | none => searchIdx wwwIRE l0
            let splits := optPos emailPos ++ optPos phonePos ++ optPos websitePos
            let sorted := sortPos splits
            if 0 < sorted.length then
              let fs := foldSegs l0 sorted
              let segs := fs.1
              let lastPos := fs.2
              let newLines :=
                if lastPos < l0.length then
                  let remaining := jsTrim (sliceFrom l0 lastPos)
                  if 0 < remaining.length then segs ++ [remaining] else segs
                else segs
              if 1 < newLines.length then pure (newLines.map ct) else pure lines0
            else pure lines0
          else pure lines0
        else pure lines0
      let cst := classifyAll st lines
      let c ← resolveNCE ct cst.1 c
      pure (c, cst.2) : Except Unit (Contact × PatState))
    = .ok (
      let lines0 := ((splitRN (ct text)).map (fun l => ct (jsTrim l))).filter
        (fun l => 0 < l.length)
      let lines :=
        match lines0 with
        | [l0] =>
            if 50 < l0.length then
              let emailPos := searchIdx emailRE l0
              let phonePos := match searchIdx phoneRE l0 with
                | some p => some p
                | none => searchIdx plusDigRE l0
              let websitePos := match searchIdx urlRE l0 with
                | some p => some p
                | none => searchIdx wwwIRE l0
              let splits := optPos emailPos ++ optPos phonePos ++ optPos websitePos
              let sorted := sortPos splits
              if 0 < sorted.length then
                let fs := foldSegs l0 sorted
                let segs := fs.1
                let lastPos := fs.2
                let newLines :=
                  if lastPos < l0.length then
                    let remaining := jsTrim (sliceFrom l0 lastPos)
                    if 0 < remaining.length then segs ++ [remaining] else segs
                  else segs
                if 1 < newLines.length then newLines.map ct else lines0
              else lines0
            else lines0
        | _ => lines0
      let cst := classifyAll st lines
      (resolveNC ct cst.1 c, cst.2)) := by
  dsimp only
  cases hl : ((splitRN (ct text)).map (fun l => ct (jsTrim l))).filter
      (fun l => 0 < l.length) with
  | nil =>
      rw [if_neg (by simp)]
      rw [exc_pure_bind]
      exact classifyTail_ok ct st c []
  | cons a t =>
      cases t with
      | nil =>
          rw [if_pos (by simp)]
          simp only [List.head?_cons, jsVal, exc_bind_ok, exc_pure_bind]
          repeat' split
          all_goals exact classifyTail_ok ct st c _
      | cons b t2 =>
          rw [if_neg (by simp)]
          rw [exc_pure_bind]
          exact classifyTail_ok ct st c (a :: b :: t2)

theorem extractBaseE_ok (ct : Str → Str) (st : PatState) (text : Str) :
    extractBaseE ct st text = .ok (extractBaseS ct st text) := by
  unfold extractBaseE extractBaseS
  dsimp only
  cases he : mFirst emailRE (ct text) with
  | some m =>
      simp only [Option.isSome_some, if_true, jsVal, exc_bind_ok, exc_pure_bind]
      cases hp : mFirst phoneRE (ct text) with
      | some pm =>
          simp only [Option.isSome_some, if_true, jsVal, exc_bind_ok, exc_pure_bind]
          exact afterPhone_ok ct _ _ text
      | none =>
          cases hpa : mFirst phoneAltRE (ct text) with
          | some pam =>
              simp only [Option.isSome_some, if_true, jsVal, exc_bind_ok, exc_pure_bind]
              exact afterPhone_ok ct _ _ text
          | none =>
              simp only [Option.isSome_none, Bool.false_eq_true, if_false,
                exc_pure_bind]
              exact afterPhone_ok ct _ _ text
  | none =>
      simp only [Option.isSome_none, Bool.false_eq_true, if_false, exc_pure_bind]
      cases hp : mFirst phoneRE (ct text) with
      | some pm =>
          simp only [Option.isSome_some, if_true, jsVal, exc_bind_ok, exc_pure_bind]
          exact afterPhone_ok ct _ _ text
      | none =>
          cases hpa : mFirst phoneAltRE (ct text) with
          | some pam =>
              simp only [Option.isSome_some, if_true, jsVal, exc_bind_ok, exc_pure_bind]
              exact afterPhone_ok ct _ _ text
          | none =>
              simp only [Option.isSome_none, Bool.false_eq_true, if_false,
                exc_pure_bind]
              exact afterPhone_ok ct _ _ text

theorem OCR_finalizeE_ok (c : Contact) :
    OCRProcessor.finalizeE c = .ok (OCRProcessor.finalize c) := by
  unfold OCRProcessor.finalizeE OCRProcessor.finalize
  cases hcp : c.phone <;> cases hce : c.email <;> (repeat' split) <;>
    simp_all [truthy, jsVal, exc_bind_ok, exc_pure_bind, pure, Except.pure]

theorem CP_finalizeE_ok (c : Contact) :
    ContactParser.finalizeE c = .ok (ContactParser.finalize c) := by
  unfold ContactParser.finalizeE ContactParser.finalize
  cases hcp : c.phone <;> cases hce : c.email <;> (repeat' split) <;>
    simp_all [truthy, jsVal, exc_bind_ok, exc_pure_bind, pure, Except.pure]

theorem OCR_extractContactInfoE_ok (st : PatState) (text : Str) :
    OCRProcessor.extractContactInfoE st text
      = .ok (OCRProcessor.extractContactInfoS st text) := by
  unfold OCRProcessor.extractContactInfoE OCRProcessor.extractContactInfoS
  split
  · rfl
  · rw [extractBaseE_ok, exc_bind_ok]
    dsimp only
    rw [OCR_finalizeE_ok, exc_bind_ok]
    rfl

theorem CP_extractContactInfoE_ok (st : PatState) (text : Str) :
    ContactParser.extractContactInfoE st text
      = .ok (ContactParser.extractContactInfoS st text) := by
  unfold ContactParser.extractContactInfoE ContactParser.extractContactInfoS
  split
  · rfl
  · rw [extractBaseE_ok, exc_bind_ok]
    dsimp only
    rw [CP_finalizeE_ok, exc_bind_ok]
    rfl

set_option maxHeartbeats 4000000 in
theorem VCardHandler.generateE_ok (c : Contact) :
    VCardHandler.generateE c = .ok (VCardHandler.generate c) := by
  unfold VCardHandler.generateE VCardHandler.generate
  cases hn : c.name <;> cases hp : c.phone <;> cases he : c.email <;>
    cases hco : c.company <;> cases ht : c.eventTag <;> (repeat' split) <;>
    simp_all [truthy, jsVal, exc_bind_ok, exc_pure_bind, pure, Except.pure]

theorem VCardHandler.parseStepE_ok (c : Contact) (line : Str) :
    VCardHandler.parseStepE c line = .ok (VCardHandler.parseStep c line) := by
  unfold VCardHandler.parseStepE VCardHandler.parseStep
  split
  · rfl
  · cases hm : lineMatch line with
    | some fv =>
        obtain ⟨f, v⟩ := fv
        simp only [Option.isSome_some, if_true, jsVal, exc_bind_ok]
        (repeat' split) <;> rfl
    | none =>
        simp only [Option.isSome_none, Bool.false_eq_true, if_false]

theorem foldlM_parseStepE_ok (ls : List Str) (c : Contact) :
    List.foldlM VCardHandler.parseStepE c ls
      = .ok (List.foldl VCardHandler.parseStep c ls) := by
  induction ls generalizing c with
  | nil => rfl
  | cons l t ih =>
      rw [List.foldlM_cons, VCardHandler.parseStepE_ok, exc_bind_ok, ih]
      rfl

theorem VCardHandler.parseE_ok (v : Str) :
    VCardHandler.parseE v = .ok (VCardHandler.parse v) := by
  unfold VCardHandler.parseE VCardHandler.parse
  split
  · rfl
  · exact foldlM_parseStepE_ok _ _

/-- C2: none of the four public operations can throw.  Every JavaScript
property or method access on a possibly-null/undefined value in `infer`
(both copies), `normalize`, `encode` and `decode` is modeled by the
exception-aware twins through `jsVal`; on every input each twin returns
`.ok` of the pure embedding, so no `TypeError` can propagate out and
`infer` never needs its catch-all (which would return the all-empty
record). -/
theorem c2_total_no_throw :
    (∀ (st : PatState) (text : Str),
        OCRProcessor.extractContactInfoE st text
          = .ok (OCRProcessor.extractContactInfoS st text)) ∧
    (∀ (st : PatState) (text : Str),
        ContactParser.extractContactInfoE st text
          = .ok (ContactParser.extractContactInfoS st text)) ∧
    (∀ (garb : Char → Bool) (s : Str),
        cleanTextWithE garb s = .ok (cleanTextWith garb s)) ∧
    (∀ c : Contact, VCardHandler.generateE c = .ok (VCardHandler.generate c)) ∧
    (∀ v : Str, VCardHandler.parseE v = .ok (VCardHandler.parse v)) :=
  ⟨OCR_extractContactInfoE_ok, CP_extractContactInfoE_ok,
   fun _ _ => rfl, VCardHandler.generateE_ok, VCardHandler.parseE_ok⟩

/-! ## C1: round trip through generate and parse -/

theorem vSafe_facts {c : Char} (h : vSafeChar c = true) :
    c ≠ '\\' ∧ c ≠ ';' ∧ c ≠ ',' ∧ c ≠ '\r' ∧ c ≠ '\n' := by
  simp only [vSafeChar, Bool.and_eq_true, Bool.not_eq_true', Bool.or_eq_false_iff,
    decide_eq_false_iff_not] at h
  tauto

theorem escape_id (s : Str) (h : ∀ c ∈ s, vSafeChar c = true) :
    VCardHandler.escape s = s := by
  rw [escape_flat s (fun c hc => ⟨(vSafe_facts (h c hc)).1, (vSafe_facts (h c hc)).2.2.2.1⟩)]
  induction s with
  | nil => rfl
  | cons x t ih =>
      obtain ⟨-, h2, h3, -, h5⟩ := vSafe_facts (h x (by simp))
      rw [List.flatMap_cons, show escChunk x = [x] by simp [escChunk, h2, h3, h5],
        List.singleton_append]
      rw [ih (fun c hc => h c (List.mem_cons_of_mem _ hc))]

theorem unescape_id (s : Str) (h : ∀ c ∈ s, c ≠ '\\') :
    VCardHandler.unescape s = s := by
  unfold VCardHandler.unescape
  rw [rAll2_id_noA _ _ _ s h, rAll2_id_noA _ _ _ s h, rAll2_id_noA _ _ _ s h,
    rAll2_id_noA _ _ _ s h]

theorem splitSemi_go_chunk (a : Str) (ha : ∀ c ∈ a, c ≠ ';') :
    ∀ (cur rest : Str),
      splitSemi.go cur (a ++ ';' :: rest) = (cur.reverse ++ a) :: splitSemi.go [] rest := by
  induction a with
  | nil => intro cur rest; simp [splitSemi.go]
  | cons c t ih =>
      intro cur rest
      rw [List.cons_append, splitSemi.go]
      have hc : ¬(c = ';') := ha c (by simp)
      simp only [hc, Bool.false_eq_true, if_false]
      rw [ih (fun d hd => ha d (List.mem_cons_of_mem _ hd)) (c :: cur) rest]
      simp

theorem splitSemi_two (a b : Str) (ha : ∀ c ∈ a, c ≠ ';') (hb : ∀ c ∈ b, c ≠ ';') :
    splitSemi (a ++ ';' :: (b ++ [';', ';', ';'])) = [a, b, [], [], []] := by
  unfold splitSemi
  rw [splitSemi_go_chunk a ha [] (b ++ [';', ';', ';'])]
  rw [show (b ++ [';', ';', ';'] : Str) = b ++ ';' :: [';', ';'] from rfl]
  rw [splitSemi_go_chunk b hb [] [';', ';']]
  simp [splitSemi.go]

theorem splitSemi_one (a : Str) (ha : ∀ c ∈ a, c ≠ ';') :
    splitSemi (a ++ [';', ';', ';']) = [a, [], [], []] := by
  unfold splitSemi
  rw [show (a ++ [';', ';', ';'] : Str) = a ++ ';' :: [';', ';'] from rfl]
  rw [splitSemi_go_chunk a ha [] [';', ';']]
  simp [splitSemi.go]

theorem joinSpace_cons (x : Str) (l : List Str) (hl : l ≠ []) :
    joinSpace (x :: l) = x ++ ' ' :: joinSpace l := by
  cases l with
  | nil => exact absurd rfl hl
  | cons y t => simp [joinSpace, List.intercalate, List.intersperse]

theorem joinSpace_singleton (x : Str) : joinSpace [x] = x := by
  simp [joinSpace, List.intercalate, List.intersperse]

theorem mem_joinSpace (l : List Str) :
    ∀ c ∈ joinSpace l, c = ' ' ∨ ∃ p ∈ l, c ∈ p := by
  induction l with
  | nil => intro c hc; simp [joinSpace, List.intercalate] at hc
  | cons x t ih =>
      intro c hc
      cases t with
      | nil =>
          rw [joinSpace_singleton] at hc
          exact Or.inr ⟨x, by simp, hc⟩
      | cons y t2 =>
          rw [joinSpace_cons x (y :: t2) (by simp)] at hc
          rcases List.mem_append.mp hc with h1 | h1
          · exact Or.inr ⟨x, by simp, h1⟩
          · rcases List.mem_cons.mp h1 with h2 | h2
            · exact Or.inl h2
            · rcases ih c h2 with h3 | ⟨p, hp, hcp⟩
              · exact Or.inl h3
              · exact Or.inr ⟨p, List.mem_cons_of_mem _ hp, hcp⟩

theorem getLastD_irrel {α : Type} (l : List α) (hl : l ≠ []) (d d' : α) :
    l.getLastD d = l.getLastD d' := by
  cases l with
  | nil => exact absurd rfl hl
  | cons a t => simp [List.getLastD]

theorem joinSpace_dropLast (l : List Str) (h : 2 ≤ l.length) :
    joinSpace l.dropLast ++ ' ' :: l.getLastD [] = joinSpace l := by
  induction l with
  | nil => simp at h
  | cons x t ih =>
      cases t with
      | nil => simp at h
      | cons y t2 =>
          cases t2 with
          | nil =>
              simp [joinSpace, List.intercalate, List.intersperse, List.getLastD]
          | cons z t3 =>
              have h2 : 2 ≤ (y :: z :: t3).length := by simp
              rw [show ((x :: y :: z :: t3).dropLast) = x :: (y :: z :: t3).dropLast from rfl]
              rw [joinSpace_cons x ((y :: z :: t3).dropLast) (by simp)]
              rw [joinSpace_cons x (y :: z :: t3) (by simp)]
              rw [show (x :: y :: z :: t3).getLastD [] = (y :: z :: t3).getLastD [] from by
                rw [show (x :: y :: z :: t3).getLastD [] = (y :: z :: t3).getLastD x from rfl]
                exact getLastD_irrel (y :: z :: t3) (by simp) x []]
              rw [List.append_assoc, List.cons_append, ih h2]

theorem goA_seg (l : Str) (hl : ∀ c ∈ l, splitCRLFruns.isSep c = false) :
    ∀ (cur rest : Str),
      splitCRLFruns.goA cur (l ++ rest) = splitCRLFruns.goA (l.reverse ++ cur) rest := by
  induction l with
  | nil => intro cur rest; simp
  | cons c t ih =>
      intro cur rest
      rw [List.cons_append, splitCRLFruns.goA, hl c (by simp)]
      simp only [Bool.false_eq_true, if_false]
      rw [ih (fun d hd => hl d (List.mem_cons_of_mem _ hd)) (c :: cur) rest]
      simp

theorem intercalate_cons₂ (sep : Str) (a b : Str) (t : List Str) :
    List.intercalate sep (a :: b :: t) = a ++ sep ++ List.intercalate sep (b :: t) := by
  simp [List.intercalate, List.intersperse]

theorem goA_intercalate : ∀ (t : List Str) (l cur : Str),
    (∀ c ∈ l, splitCRLFruns.isSep c = false) →
    (∀ m ∈ t, m ≠ [] ∧ ∀ c ∈ m, splitCRLFruns.isSep c = false) →
    splitCRLFruns.goA cur (List.intercalate ['\r', '\n'] (l :: t))
      = (cur.reverse ++ l) :: t := by
  intro t
  induction t with
  | nil =>
      intro l cur hl _
      rw [show List.intercalate ['\r', '\n'] [l] = l from by
        simp [List.intercalate, List.intersperse]]
      rw [show (l : Str) = l ++ [] from by simp] 
      rw [goA_seg l hl cur []]
      rw [splitCRLFruns.goA]
      simp
  | cons l2 t2 ih =>
      intro l cur hl h
      rw [intercalate_cons₂, List.append_assoc, goA_seg l hl cur]
      rw [show (['\r', '\n'] ++ List.intercalate ['\r', '\n'] (l2 :: t2) : Str)
          = '\r' :: '\n' :: List.intercalate ['\r', '\n'] (l2 :: t2) from rfl]
      rw [splitCRLFruns.goA]
      rw [show splitCRLFruns.isSep '\r' = true from rfl]
      simp only [if_true]
      rw [show splitCRLFruns.goB ('\n' :: List.intercalate ['\r', '\n'] (l2 :: t2))
          = splitCRLFruns.goB (List.intercalate ['\r', '\n'] (l2 :: t2)) from by
        rw [splitCRLFruns.goB]; rfl]
      obtain ⟨hl2ne, hl2c⟩ := h l2 (by simp)
      cases hc2 : l2 with
      | nil => exact absurd hc2 hl2ne
      | cons c2 l2' =>
          subst hc2
          have hone : List.intercalate ['\r', '\n'] ((c2 :: l2') :: t2)
              = c2 :: (l2' ++ (match t2 with
                | [] => []
                | _ :: _ => ['\r', '\n'] ++ List.intercalate ['\r', '\n'] t2)) := by
            cases t2 with
            | nil => simp [List.intercalate, List.intersperse]
            | cons m t3 => rw [intercalate_cons₂]; simp
          have hc2s : splitCRLFruns.isSep c2 = false := hl2c c2 (by simp)
          have hgB : splitCRLFruns.goB (List.intercalate ['\r', '\n'] ((c2 :: l2') :: t2))
              = splitCRLFruns.goA [] (List.intercalate ['\r', '\n'] ((c2 :: l2') :: t2)) := by
            rw [hone, splitCRLFruns.goB, splitCRLFruns.goA, hc2s]
            simp
          rw [hgB, ih (c2 :: l2') [] hl2c (fun m hm => h m (List.mem_cons_of_mem _ hm))]
          simp

theorem splitCRLFruns_intercalate (ls : List Str) (hne : ls ≠ [])
    (h : ∀ m ∈ ls, m ≠ [] ∧ ∀ c ∈ m, splitCRLFruns.isSep c = false) :
    splitCRLFruns (List.intercalate ['\r', '\n'] ls) = ls := by
  cases ls with
  | nil => exact absurd rfl hne
  | cons l t =>
      unfold splitCRLFruns
      rw [goA_intercalate t l [] (h l (by simp)).2
        (fun m hm => h m (List.mem_cons_of_mem _ hm))]
      simp

theorem jsSplitWs_goA_ne (s cur : Str) : jsSplitWs.goA cur s ≠ [] := by
  induction s generalizing cur with
  | nil => simp [jsSplitWs.goA]
  | cons c rest ih =>
      rw [jsSplitWs.goA]
      by_cases hw : isJsWs c = true
      · simp [hw]
      · simp only [hw, Bool.false_eq_true, if_false]
        exact ih (c :: cur)

theorem ntF_ws_elim {a : Bool} {c : Char} {rest : Str}
    (h : ntF a (c :: rest) = true) (hw : isJsWs c = true) :
    c = ' ' ∧ a = false ∧ ntF true rest = true := by
  rw [ntF, hw] at h
  simp only [if_true, Bool.and_eq_true, decide_eq_true_eq, Bool.not_eq_true'] at h
  exact ⟨h.1.1, h.1.2, h.2⟩

theorem ntF_nws_elim {a : Bool} {c : Char} {rest : Str}
    (h : ntF a (c :: rest) = true) (hw : isJsWs c = false) :
    ntF false rest = true := by
  rw [ntF, hw] at h
  simpa using h

theorem ntF_true_head {s : Str} (h : ntF true s = true) :
    ∃ c rest, s = c :: rest ∧ isJsWs c = false ∧ ntF false rest = true := by
  cases s with
  | nil => rw [ntF] at h; simp at h
  | cons c rest =>
      by_cases hw : isJsWs c = true
      · obtain ⟨-, h2, -⟩ := ntF_ws_elim h hw
        simp at h2
      · exact ⟨c, rest, rfl, by simpa using hw, ntF_nws_elim h (by simpa using hw)⟩

theorem ntF_last : ∀ (s : Str) (a : Bool), ntF a s = true →
    ∀ c, s.getLast? = some c → isJsWs c = false := by
  intro s
  induction s with
  | nil => intro a _ c hc; simp at hc
  | cons d rest ih =>
      intro a h c hc
      cases rest with
      | nil =>
          have hcd : c = d := by simpa using hc.symm
          subst hcd
          by_cases hw : isJsWs c = true
          · obtain ⟨-, -, h3⟩ := ntF_ws_elim h hw
            rw [ntF] at h3; simp at h3
          · simpa using hw
      | cons e rest2 =>
          have hc2 : (e :: rest2).getLast? = some c := by
            rw [List.getLast?_cons_cons] at hc
            exact hc
          by_cases hw : isJsWs d = true
          · exact ih true (ntF_ws_elim h hw).2.2 c hc2
          · exact ih false (ntF_nws_elim h (by simpa using hw)) c hc2

theorem goA_join : ∀ (n : Nat) (s cur : Str), s.length ≤ n → ntF false s = true →
    joinSpace (jsSplitWs.goA cur s) = cur.reverse ++ s := by
  intro n
  induction n with
  | zero =>
      intro s cur hlen _
      have : s = [] := List.length_eq_zero.mp (Nat.le_zero.mp hlen)
      subst this
      rw [jsSplitWs.goA, joinSpace_singleton]
      simp
  | succ n ih =>
      intro s cur hlen hnt
      cases s with
      | nil =>
          rw [jsSplitWs.goA, joinSpace_singleton]
          simp
      | cons c rest =>
          by_cases hw : isJsWs c = true
          · obtain ⟨hsp, -, h3⟩ := ntF_ws_elim hnt hw
            obtain ⟨d, rest2, rfl, hd, hnt2⟩ := ntF_true_head h3
            rw [jsSplitWs.goA, hw]
            simp only [if_true]
            rw [show jsSplitWs.goB (d :: rest2) = jsSplitWs.goA [d] rest2 from by
              rw [jsSplitWs.goB, hd]; simp]
            rw [joinSpace_cons _ _ (jsSplitWs_goA_ne rest2 [d])]
            rw [ih rest2 [d] (by simp at hlen; omega) hnt2]
            subst hsp
            simp
          · have hw2 : isJsWs c = false := by simpa using hw
            have hnt2 := ntF_nws_elim hnt hw2
            rw [jsSplitWs.goA, hw2]
            simp only [Bool.false_eq_true, if_false]
            rw [ih rest (c :: cur) (by simpa using hlen) hnt2]
            simp

theorem goA_tok : ∀ (n : Nat) (s cur : Str), s.length ≤ n → ntF false s = true →
    cur ≠ [] → (∀ c ∈ cur, isJsWs c = false) →
    ∀ p ∈ jsSplitWs.goA cur s,
      p ≠ [] ∧ ∀ c ∈ p, (c ∈ cur ∨ c ∈ s) ∧ isJsWs c = false := by
  intro n
  induction n with
  | zero =>
      intro s cur hlen _ hcur hcurw p hp
      have : s = [] := List.length_eq_zero.mp (Nat.le_zero.mp hlen)
      subst this
      rw [jsSplitWs.goA] at hp
      simp only [List.mem_singleton] at hp
      subst hp
      refine ⟨by simpa using hcur, fun c hc => ?_⟩
      rw [List.mem_reverse] at hc
      exact ⟨Or.inl hc, hcurw c hc⟩
  | succ n ih =>
      intro s cur hlen hnt hcur hcurw p hp
      cases s with
      | nil =>
          rw [jsSplitWs.goA] at hp
          simp only [List.mem_singleton] at hp
          subst hp
          refine ⟨by simpa using hcur, fun c hc => ?_⟩
          rw [List.mem_reverse] at hc
          exact ⟨Or.inl hc, hcurw c hc⟩
      | cons c rest =>
          by_cases hw : isJsWs c = true
          · obtain ⟨hsp, -, h3⟩ := ntF_ws_elim hnt hw
            obtain ⟨d, rest2, rfl, hd, hnt2⟩ := ntF_true_head h3
            rw [jsSplitWs.goA, hw] at hp
            simp only [if_true] at hp
            rw [show jsSplitWs.goB (d :: rest2) = jsSplitWs.goA [d] rest2 from by
              rw [jsSplitWs.goB, hd]; simp] at hp
            rcases List.mem_cons.mp hp with h1 | h1
            · subst h1
              refine ⟨by simpa using hcur, fun x hx => ?_⟩
              rw [List.mem_reverse] at hx
              exact ⟨Or.inl hx, hcurw x hx⟩
            · have := ih rest2 [d] (by simp at hlen; omega) hnt2 (by simp)
                (fun x hx => by simp at hx; subst hx; exact hd) p h1
              refine ⟨this.1, fun x hx => ?_⟩
              obtain ⟨hmem, hxw⟩ := this.2 x hx
              refine ⟨Or.inr ?_, hxw⟩
              rcases hmem with h2 | h2
              · simp at h2; subst h2; simp
              · simp [h2]
          · have hw2 : isJsWs c = false := by simpa using hw
            have hnt2 := ntF_nws_elim hnt hw2
            rw [jsSplitWs.goA, hw2] at hp
            simp only [Bool.false_eq_true, if_false] at hp
            have := ih rest (c :: cur) (by simpa using hlen) hnt2 (by simp)
              (fun x hx => by
                rcases List.mem_cons.mp hx with h2 | h2
                · subst h2; simpa using hw
                · exact hcurw x h2) p hp
            refine ⟨this.1, fun x hx => ?_⟩
            obtain ⟨hmem, hxw⟩ := this.2 x hx
            refine ⟨?_, hxw⟩
            rcases hmem with h2 | h2
            · rcases List.mem_cons.mp h2 with h3 | h3
              · subst h3; simp
              · exact Or.inl h3
            · simp [h2]

theorem joinSpace_jsSplitWs (s : Str) (h : ntF true s = true) :
    joinSpace (jsSplitWs s) = s := by
  obtain ⟨c, rest, rfl, hc, hrest⟩ := ntF_true_head h
  unfold jsSplitWs
  rw [jsSplitWs.goA, hc]
  simp only [Bool.false_eq_true, if_false]
  rw [goA_join rest.length rest [c] le_rfl hrest]
  simp

theorem tokens_jsSplitWs (s : Str) (h : ntF true s = true) :
    ∀ p ∈ jsSplitWs s, p ≠ [] ∧ ∀ c ∈ p, c ∈ s ∧ isJsWs c = false := by
  obtain ⟨c, rest, rfl, hc, hrest⟩ := ntF_true_head h
  unfold jsSplitWs
  rw [jsSplitWs.goA, hc]
  simp only [Bool.false_eq_true, if_false]
  intro p hp
  have := goA_tok rest.length rest [c] le_rfl hrest (by simp)
    (fun x hx => by simp at hx; subst hx; exact hc) p hp
  refine ⟨this.1, fun x hx => ?_⟩
  obtain ⟨hmem, hxw⟩ := this.2 x hx
  refine ⟨?_, hxw⟩
  rcases hmem with h2 | h2
  · simp at h2; subst h2; simp
  · simp [h2]

theorem truthy_some_ne {s : Str} (h : s ≠ []) : truthy (some s) = true := by
  cases s with
  | nil => exact absurd rfl h
  | cons c t => rfl

theorem vSafe_notSep {c : Char} (h : vSafeChar c = true) :
    splitCRLFruns.isSep c = false := by
  obtain ⟨-, -, -, h4, h5⟩ := vSafe_facts h
  simp [splitCRLFruns.isSep, h4, h5]

theorem vSafe_isDotC {c : Char} (h : vSafeChar c = true) :
    VCardHandler.isDotC c = true := by
  obtain ⟨-, -, -, h4, h5⟩ := vSafe_facts h
  have hA : c.toNat < 128 := by
    simp only [vSafeChar, Bool.and_eq_true, decide_eq_true_eq] at h
    exact h.1
  simp only [VCardHandler.isDotC, Bool.or_eq_false_iff, Bool.not_eq_true',
    decide_eq_false_iff_not]
  refine ⟨⟨⟨h5, h4⟩, ?_⟩, ?_⟩ <;> intro heq <;> subst heq <;>
    exact absurd hA (by decide)

theorem jsTrim_of_ntF {s : Str} (h : ntF true s = true) : jsTrim s = s := by
  obtain ⟨c, rest, heq, hc, -⟩ := ntF_true_head h
  refine jsTrim_id ?_ ?_
  · intro d hd
    rw [heq] at hd
    simp only [List.head?_cons, Option.some_inj] at hd
    subst hd
    exact hc
  · exact ntF_last s true h

theorem jsTrim_space_cons {s : Str}
    (hh : ∀ c, s.head? = some c → isJsWs c = false)
    (hl : ∀ c, s.getLast? = some c → isJsWs c = false) :
    jsTrim (' ' :: s) = s := by
  unfold jsTrim
  rw [List.dropWhile_cons]
  rw [show isJsWs ' ' = true from by decide]
  simp only [if_true]
  rw [dropWhile_id hh]
  exact dropEndWhile_id hl

theorem phoneSafe_vSafe {c : Char} (h : phoneSafeChar c = true) : vSafeChar c = true := by
  simp only [phoneSafeChar, Bool.and_eq_true] at h
  exact h.1

theorem generate_full (name phone email company tag : Str)
    (hn : name ≠ []) (hp : phone ≠ []) (he : email ≠ []) (hco : company ≠ [])
    (ht : tag ≠ []) (hpf : ∀ c ∈ phone, phoneSafeChar c = true) :
    VCardHandler.generate ⟨some name, some phone, some email, some company, some tag⟩ =
      List.intercalate ['\r', '\n']
        ["BEGIN:VCARD".data, "VERSION:3.0".data,
         "FN:".data ++ VCardHandler.escape name,
         (if 1 < (jsSplitWs (jsTrim name)).length then
            "N:".data ++ VCardHandler.escape ((jsSplitWs (jsTrim name)).getLastD []) ++ [';'] ++
              VCardHandler.escape (joinSpace (jsSplitWs (jsTrim name)).dropLast) ++ ";;;".data
          else "N:".data ++ VCardHandler.escape name ++ ";;;".data),
         "TEL;TYPE=CELL:".data ++ VCardHandler.escape phone,
         "EMAIL;TYPE=INTERNET:".data ++ VCardHandler.escape email,
         "ORG:".data ++ VCardHandler.escape company,
         "X-EVENT-TAG:".data ++ VCardHandler.escape tag,
         "END:VCARD".data] := by
  have hfilter : phone.filter
      (fun ch => !(isJsWs ch || ch = '-' || ch = '(' || ch = ')')) = phone := by
    refine List.filter_eq_self.mpr (fun a ha => ?_)
    have := hpf a ha
    simp only [phoneSafeChar, Bool.and_eq_true, Bool.not_eq_true',
      Bool.or_eq_false_iff] at this ⊢
    exact this.2
  unfold VCardHandler.generate
  dsimp only
  rw [truthy_some_ne hn, truthy_some_ne hp, truthy_some_ne he, truthy_some_ne hco,
    truthy_some_ne ht]
  simp only [if_true, Option.getD_some]
  rw [hfilter]
  rfl

theorem getLastD_mem {α : Type} : ∀ (l : List α), l ≠ [] → ∀ (d : α), l.getLastD d ∈ l := by
  intro l
  induction l with
  | nil => intro h; exact absurd rfl h
  | cons a t ih =>
      intro _ d
      cases t with
      | nil => simp [List.getLastD]
      | cons b t2 =>
          rw [show (a :: b :: t2).getLastD d = (b :: t2).getLastD a from by
            simp [List.getLastD]]
          exact List.mem_cons_of_mem a (ih (by simp) a)

theorem jsSplitWs_ne (s : Str) : jsSplitWs s ≠ [] := by
  unfold jsSplitWs
  exact jsSplitWs_goA_ne s []

theorem parse_nonempty (v : Str) (hv : v.isEmpty = false) :
    VCardHandler.parse v
      = (splitCRLFruns v).foldl VCardHandler.parseStep VCardHandler.initVC := by
  unfold VCardHandler.parse
  rw [hv]
  rfl

/-- C1 (amended): the round trip holds for records whose fields are
non-empty ASCII strings free of backslash, semicolon, comma, CR and LF,
whose phone is additionally free of whitespace, parens and hyphens, and
whose name is well-spaced (single interior ASCII blanks only, none at
either end) — see `c1_counterexample` for why the spacing condition on the
name cannot be dropped. -/
theorem c1_roundtrip_simple (name phone email company tag : Str)
    (hname : simpleNameOK name = true)
    (hphone : phone ≠ [] ∧ ∀ c ∈ phone, phoneSafeChar c = true)
    (hemail : email ≠ [] ∧ ∀ c ∈ email, vSafeChar c = true)
    (hcompany : company ≠ [] ∧ ∀ c ∈ company, vSafeChar c = true)
    (htag : tag ≠ [] ∧ ∀ c ∈ tag, vSafeChar c = true) :
    VCardHandler.parse (VCardHandler.generate
        ⟨some name, some phone, some email, some company, some tag⟩)
      = ⟨some name, some phone, some email, some company, some tag⟩ := by
  obtain ⟨hp0, hpf⟩ := hphone
  obtain ⟨he0, hef⟩ := hemail
  obtain ⟨hco0, hcof⟩ := hcompany
  obtain ⟨ht0, htf⟩ := htag
  have hnboth : (∀ c ∈ name, vSafeChar c = true) ∧ ntF true name = true := by
    simp only [simpleNameOK, Bool.and_eq_true, List.all_eq_true] at hname
    exact hname
  have hnall := hnboth.1
  have hnnt := hnboth.2
  obtain ⟨c0, nrest, hne, hc0, -⟩ := ntF_true_head hnnt
  have hn0 : name ≠ [] := by rw [hne]; simp
  have htrim : jsTrim name = name := jsTrim_of_ntF hnnt
  have hpv : ∀ c ∈ phone, vSafeChar c = true := fun c hc => phoneSafe_vSafe (hpf c hc)
  have hBSname : ∀ c ∈ name, c ≠ '\\' := fun c hc => (vSafe_facts (hnall c hc)).1
  have hvdname : name.all VCardHandler.isDotC = true :=
    List.all_eq_true.mpr (fun c hc => vSafe_isDotC (hnall c hc))
  have hvdphone : phone.all VCardHandler.isDotC = true :=
    List.all_eq_true.mpr (fun c hc => vSafe_isDotC (hpv c hc))
  have hvdemail : email.all VCardHandler.isDotC = true :=
    List.all_eq_true.mpr (fun c hc => vSafe_isDotC (hef c hc))
  have hvdco : company.all VCardHandler.isDotC = true :=
    List.all_eq_true.mpr (fun c hc => vSafe_isDotC (hcof c hc))
  have hvdtag : tag.all VCardHandler.isDotC = true :=
    List.all_eq_true.mpr (fun c hc => vSafe_isDotC (htf c hc))
  rw [generate_full name phone email company tag hn0 hp0 he0 hco0 ht0 hpf, htrim]
  rw [escape_id name hnall, escape_id phone hpv, escape_id email hef,
    escape_id company hcof, escape_id tag htf]
  have htok := tokens_jsSplitWs name hnnt
  have hBEGINc : ∀ x ∈ ("BEGIN:VCARD".data : Str), splitCRLFruns.isSep x = false := by decide
  have hVERSIONc : ∀ x ∈ ("VERSION:3.0".data : Str), splitCRLFruns.isSep x = false := by decide
  have hENDc : ∀ x ∈ ("END:VCARD".data : Str), splitCRLFruns.isSep x = false := by decide
  by_cases hsplit : 1 < (jsSplitWs name).length
  · rw [if_pos hsplit]
    have hlastmem : (jsSplitWs name).getLastD [] ∈ jsSplitWs name :=
      getLastD_mem _ (jsSplitWs_ne name) []
    have hlast := htok _ hlastmem
    have hlastall : ∀ c ∈ (jsSplitWs name).getLastD [], vSafeChar c = true :=
      fun c hc => hnall c (hlast.2 c hc).1
    have hjoinedall : ∀ c ∈ joinSpace (jsSplitWs name).dropLast, vSafeChar c = true := by
      intro c hc
      rcases mem_joinSpace _ c hc with h1 | ⟨p, hp, hcp⟩
      · subst h1; decide
      · exact hnall c ((htok p (List.dropLast_subset _ hp)).2 c hcp).1
    rw [escape_id _ hlastall, escape_id _ hjoinedall]
    rw [parse_nonempty _ (by rw [intercalate_cons₂]; rfl)]
    rw [splitCRLFruns_intercalate _ (by simp) (by
      intro m hm
      simp only [List.mem_cons] at hm
      rcases hm with rfl | rfl | rfl | rfl | rfl | rfl | rfl | rfl | rfl | hF
      · exact ⟨by decide, hBEGINc⟩
      · exact ⟨by decide, hVERSIONc⟩
      · refine ⟨by simp, fun c hc => ?_⟩
        rcases List.mem_append.mp hc with h | h
        · exact (by decide : ∀ x ∈ ("FN:".data : Str), splitCRLFruns.isSep x = false) c h
        · exact vSafe_notSep (hnall c h)
      · refine ⟨by simp, fun c hc => ?_⟩
        rcases List.mem_append.mp hc with h1 | h1
        · rcases List.mem_append.mp h1 with h2 | h2
          · rcases List.mem_append.mp h2 with h3 | h3
            · rcases List.mem_append.mp h3 with h4 | h4
              · exact (by decide : ∀ x ∈ ("N:".data : Str),
                  splitCRLFruns.isSep x = false) c h4
              · exact vSafe_notSep (hlastall c h4)
            · simp only [List.mem_singleton] at h3
              subst h3; decide
          · exact vSafe_notSep (hjoinedall c h2)
        · exact (by decide : ∀ x ∈ (";;;".data : Str),
            splitCRLFruns.isSep x = false) c h1
      · refine ⟨by simp, fun c hc => ?_⟩
        rcases List.mem_append.mp hc with h | h
        · exact (by decide : ∀ x ∈ ("TEL;TYPE=CELL:".data : Str),
            splitCRLFruns.isSep x = false) c h
        · exact vSafe_notSep (hpv c h)
      · refine ⟨by simp, fun c hc => ?_⟩
        rcases List.mem_append.mp hc with h | h
        · exact (by decide : ∀ x ∈ ("EMAIL;TYPE=INTERNET:".data : Str),
            splitCRLFruns.isSep x = false) c h
        · exact vSafe_notSep (hef c h)
      · refine ⟨by simp, fun c hc => ?_⟩
        rcases List.mem_append.mp hc with h | h
        · exact (by decide : ∀ x ∈ ("ORG:".data : Str),
            splitCRLFruns.isSep x = false) c h
        · exact vSafe_notSep (hcof c h)
      · refine ⟨by simp, fun c hc => ?_⟩
        rcases List.mem_append.mp hc with h | h
        · exact (by decide : ∀ x ∈ ("X-EVENT-TAG:".data : Str),
            splitCRLFruns.isSep x = false) c h
        · exact vSafe_notSep (htf c h)
      · exact ⟨by decide, hENDc⟩
      · simp at hF)]
    rw [List.foldl_cons, parseStep_skipBEGIN]
    rw [List.foldl_cons, parseStep_VERSION]
    rw [List.foldl_cons,
      show ("FN:".data ++ name : Str) = ['F', 'N'] ++ ':' :: name from rfl,
      parseStep_FN _ name hn0 hvdname, unescape_id name hBSname]
    have hlastns : ∀ c ∈ (jsSplitWs name).getLastD [], c ≠ ';' :=
      fun c hc => (vSafe_facts (hlastall c hc)).2.1
    have hjoinedns : ∀ c ∈ joinSpace (jsSplitWs name).dropLast, c ≠ ';' :=
      fun c hc => (vSafe_facts (hjoinedall c hc)).2.1
    have hvdN : ((jsSplitWs name).getLastD [] ++
        ';' :: (joinSpace (jsSplitWs name).dropLast ++ [';', ';', ';'])).all
          VCardHandler.isDotC = true := by
      refine List.all_eq_true.mpr (fun c hc => ?_)
      rcases List.mem_append.mp hc with h | h
      · exact vSafe_isDotC (hlastall c h)
      · rcases List.mem_cons.mp h with h2 | h2
        · subst h2; decide
        · rcases List.mem_append.mp h2 with h3 | h3
          · exact vSafe_isDotC (hjoinedall c h3)
          · have hcs : c = ';' := by simpa using h3
            subst hcs; decide
    rw [List.foldl_cons,
      show ("N:".data ++ (jsSplitWs name).getLastD [] ++ [';'] ++
          joinSpace (jsSplitWs name).dropLast ++ ";;;".data : Str)
        = ['N'] ++ ':' :: ((jsSplitWs name).getLastD [] ++
            ';' :: (joinSpace (jsSplitWs name).dropLast ++ [';', ';', ';'])) from by
        simp]
    rw [parseStep_N _ _ (by simp) hvdN]
    rw [splitSemi_two _ _ hlastns hjoinedns]
    rw [if_pos (by simp)]
    simp only [List.getD_cons_succ, List.getD_cons_zero]
    rw [unescape_id _ (fun c hc => (vSafe_facts (hjoinedall c hc)).1),
      unescape_id _ (fun c hc => (vSafe_facts (hlastall c hc)).1)]
    rw [joinSpace_dropLast (jsSplitWs name) (by omega)]
    rw [joinSpace_jsSplitWs name hnnt, htrim]
    rw [List.foldl_cons,
      show ("TEL;TYPE=CELL:".data ++ phone : Str)
        = "TEL;TYPE=CELL".data ++ ':' :: phone from rfl,
      parseStep_TELfull _ phone hp0 hvdphone]
    rw [if_neg (by simp [VCardHandler.initVC, truthy])]
    rw [unescape_id phone (fun c hc => (vSafe_facts (hpv c hc)).1)]
    rw [List.foldl_cons,
      show ("EMAIL;TYPE=INTERNET:".data ++ email : Str)
        = "EMAIL;TYPE=INTERNET".data ++ ':' :: email from rfl,
      parseStep_EMAILfull _ email he0 hvdemail]
    rw [if_neg (by simp [VCardHandler.initVC, truthy])]
    rw [unescape_id email (fun c hc => (vSafe_facts (hef c hc)).1)]
    rw [List.foldl_cons,
      show ("ORG:".data ++ company : Str) = ['O', 'R', 'G'] ++ ':' :: company from rfl,
      parseStep_ORG _ company hco0 hvdco]
    rw [unescape_id company (fun c hc => (vSafe_facts (hcof c hc)).1)]
    rw [List.foldl_cons,
      show ("X-EVENT-TAG:".data ++ tag : Str) = "X-EVENT-TAG".data ++ ':' :: tag from rfl,
      parseStep_XTAG _ tag ht0 hvdtag]
    rw [unescape_id tag (fun c hc => (vSafe_facts (htf c hc)).1)]
    rw [List.foldl_cons, parseStep_skipEND]
    rfl
  · rw [if_neg hsplit]
    have hparts : jsSplitWs name = [name] := by
      cases hq : jsSplitWs name with
      | nil => exact absurd hq (jsSplitWs_ne name)
      | cons p t =>
          cases t with
          | nil =>
              have := joinSpace_jsSplitWs name hnnt
              rw [hq, joinSpace_singleton] at this
              rw [this]
          | cons p2 t2 =>
              exfalso
              apply hsplit
              rw [hq]
              simp
    rw [parse_nonempty _ (by rw [intercalate_cons₂]; rfl)]
    rw [splitCRLFruns_intercalate _ (by simp) (by
      intro m hm
      simp only [List.mem_cons] at hm
      rcases hm with rfl | rfl | rfl | rfl | rfl | rfl | rfl | rfl | rfl | hF
      · exact ⟨by decide, hBEGINc⟩
      · exact ⟨by decide, hVERSIONc⟩
      · refine ⟨by simp, fun c hc => ?_⟩
        rcases List.mem_append.mp hc with h | h
        · exact (by decide : ∀ x ∈ ("FN:".data : Str), splitCRLFruns.isSep x = false) c h
        · exact vSafe_notSep (hnall c h)
      · refine ⟨by simp, fun c hc => ?_⟩
        rcases List.mem_append.mp hc with h1 | h1
        · rcases List.mem_append.mp h1 with h2 | h2
          · exact (by decide : ∀ x ∈ ("N:".data : Str),
              splitCRLFruns.isSep x = false) c h2
          · exact vSafe_notSep (hnall c h2)
        · exact (by decide : ∀ x ∈ (";;;".data : Str),
            splitCRLFruns.isSep x = false) c h1
      · refine ⟨by simp, fun c hc => ?_⟩
        rcases List.mem_append.mp hc with h | h
        · exact (by decide : ∀ x ∈ ("TEL;TYPE=CELL:".data : Str),
            splitCRLFruns.isSep x = false) c h
        · exact vSafe_notSep (hpv c h)
      · refine ⟨by simp, fun c hc => ?_⟩
        rcases List.mem_append.mp hc with h | h
        · exact (by decide : ∀ x ∈ ("EMAIL;TYPE=INTERNET:".data : Str),
            splitCRLFruns.isSep x = false) c h
        · exact vSafe_notSep (hef c h)
      · refine ⟨by simp, fun c hc => ?_⟩
        rcases List.mem_append.mp hc with h | h
        · exact (by decide : ∀ x ∈ ("ORG:".data : Str),
            splitCRLFruns.isSep x = false) c h
        · exact vSafe_notSep (hcof c h)
      · refine ⟨by simp, fun c hc => ?_⟩
        rcases List.mem_append.mp hc with h | h
        · exact (by decide : ∀ x ∈ ("X-EVENT-TAG:".data : Str),
            splitCRLFruns.isSep x = false) c h
        · exact vSafe_notSep (htf c h)
      · exact ⟨by decide, hENDc⟩
      · simp at hF)]
    rw [List.foldl_cons, parseStep_skipBEGIN]
    rw [List.foldl_cons, parseStep_VERSION]
    rw [List.foldl_cons,
      show ("FN:".data ++ name : Str) = ['F', 'N'] ++ ':' :: name from rfl,
      parseStep_FN _ name hn0 hvdname, unescape_id name hBSname]
    have hnamens : ∀ c ∈ name, c ≠ ';' := fun c hc => (vSafe_facts (hnall c hc)).2.1
    have hvdN : (name ++ [';', ';', ';']).all VCardHandler.isDotC = true := by
      refine List.all_eq_true.mpr (fun c hc => ?_)
      rcases List.mem_append.mp hc with h | h
      · exact vSafe_isDotC (hnall c h)
      · have hcs : c = ';' := by simpa using h
        subst hcs; decide
    rw [List.foldl_cons,
      show ("N:".data ++ name ++ ";;;".data : Str)
        = ['N'] ++ ':' :: (name ++ [';', ';', ';']) from by simp]
    rw [parseStep_N _ _ (by simp) hvdN]
    rw [splitSemi_one name hnamens]
    rw [if_pos (by simp)]
    simp only [List.getD_cons_succ, List.getD_cons_zero]
    rw [show VCardHandler.unescape ([] : Str) = [] from rfl]
    rw [unescape_id name hBSname]
    rw [List.nil_append]
    rw [jsTrim_space_cons (fun d hd => by
        rw [hne] at hd
        simp only [List.head?_cons, Option.some_inj] at hd
        subst hd
        exact hc0)
      (ntF_last name true hnnt)]
    rw [List.foldl_cons,
      show ("TEL;TYPE=CELL:".data ++ phone : Str)
        = "TEL;TYPE=CELL".data ++ ':' :: phone from rfl,
      parseStep_TELfull _ phone hp0 hvdphone]
    rw [if_neg (by simp [VCardHandler.initVC, truthy])]
    rw [unescape_id phone (fun c hc => (vSafe_facts (hpv c hc)).1)]
    rw [List.foldl_cons,
      show ("EMAIL;TYPE=INTERNET:".data ++ email : Str)
        = "EMAIL;TYPE=INTERNET".data ++ ':' :: email from rfl,
      parseStep_EMAILfull _ email he0 hvdemail]
    rw [if_neg (by simp [VCardHandler.initVC, truthy])]
    rw [unescape_id email (fun c hc => (vSafe_facts (hef c hc)).1)]
    rw [List.foldl_cons,
      show ("ORG:".data ++ company : Str) = ['O', 'R', 'G'] ++ ':' :: company from rfl,
      parseStep_ORG _ company hco0 hvdco]
    rw [unescape_id company (fun c hc => (vSafe_facts (hcof c hc)).1)]
    rw [List.foldl_cons,
      show ("X-EVENT-TAG:".data ++ tag : Str) = "X-EVENT-TAG".data ++ ':' :: tag from rfl,
      parseStep_XTAG _ tag ht0 hvdtag]
    rw [unescape_id tag (fun c hc => (vSafe_facts (htf c hc)).1)]
    rw [List.foldl_cons, parseStep_skipEND]
    rfl

/-- C1 (counterexample): the round trip can fail for a record all of whose
fields are simple ASCII values free of every vCard-reserved character
(no backslash, semicolon, comma, CR or LF; phone free of
spaces/parens/hyphens).  A name with two adjacent interior spaces satisfies
all those conditions, yet the `N` line — rebuilt from the whitespace-split
name and processed after `FN` — collapses the double space, so decode of
encode alters the name.  (`c1_roundtrip_simple` amends the claim with the
required spacing condition.) -/
theorem c1_counterexample :
    ("A  B".data.all vSafeChar = true ∧
     "5551234567".data.all phoneSafeChar = true ∧
     "ab@x.io".data.all vSafeChar = true ∧
     "Acme".data.all vSafeChar = true ∧
     "expo".data.all vSafeChar = true) ∧
    VCardHandler.parse (VCardHandler.generate
        ⟨some "A  B".data, some "5551234567".data, some "ab@x.io".data,
         some "Acme".data, some "expo".data⟩)
      ≠ ⟨some "A  B".data, some "5551234567".data, some "ab@x.io".data,
         some "Acme".data, some "expo".data⟩ ∧
    (VCardHandler.parse (VCardHandler.generate
        ⟨some "A  B".data, some "5551234567".data, some "ab@x.io".data,
         some "Acme".data, some "expo".data⟩)).name = some "A B".data := by
  refine ⟨⟨by decide, by decide, by decide, by decide, by decide⟩, by decide, by decide⟩

theorem c1_witness :
    simpleNameOK "John A Doe".data = true ∧
    VCardHandler.parse (VCardHandler.generate
        ⟨some "John A Doe".data, some "+15551234567".data, some "j@x.io".data,
         some "Acme Inc".data, some "expo2024".data⟩)
      = ⟨some "John A Doe".data, some "+15551234567".data, some "j@x.io".data,
         some "Acme Inc".data, some "expo2024".data⟩ :=
  ⟨by decide,
   c1_roundtrip_simple "John A Doe".data "+15551234567".data "j@x.io".data
     "Acme Inc".data "expo2024".data (by decide)
     ⟨by decide, by decide⟩ ⟨by decide, by decide⟩
     ⟨by decide, by decide⟩ ⟨by decide, by decide⟩⟩
